import Mathlib

/-!
# Harbor project API (`src/ui/api/project.go`)

A shallow embedding of the project resource controller: the request validation
(`validateProjectReq`), the regular expressions it uses, and the handlers
`Prepare`, `Post`, `Head`, `Get`, `Delete`, `List` and `ToggleProjectPublic`,
written as functions of the answers their collaborators give (the data-access
layer, the configuration, the request) that return the response together with
the collaborator calls made, in order.
-/

namespace Harbor

/-! ## Regular expressions (Go `regexp`, the fragment the file uses) -/

/-- A regular expression over runes. A character class is a list of inclusive
ranges, so `[a-z0-9]` is `cls [(a, z), (0, 9)]` and a literal rune `x` is
`cls [(x, x)]`. -/
inductive Regex where
  | nothing : Regex
  | empty : Regex
  | cls (ranges : List (Char × Char)) : Regex
  | seq (a b : Regex) : Regex
  | alt (a b : Regex) : Regex
  | star (a : Regex) : Regex

/-- Membership of a rune in a character class. -/
def inClass (ranges : List (Char × Char)) (c : Char) : Bool :=
  ranges.any (fun r => decide (r.1.toNat ≤ c.toNat) && decide (c.toNat ≤ r.2.toNat))

namespace Regex

/-- The literal rune `c`. -/
def lit (c : Char) : Regex := cls [(c, c)]

/-- The literal text `s`, rune after rune. -/
def str (s : String) : Regex := s.data.foldr (fun c r => seq (lit c) r) empty

/-- One or more repetitions: `r+`. -/
def plus (r : Regex) : Regex := seq r (star r)

/-- Whether the expression accepts the empty text. -/
def nullable : Regex → Bool
  | nothing => false
  | empty => true
  | cls _ => false
  | seq a b => a.nullable && b.nullable
  | alt a b => a.nullable || b.nullable
  | star _ => true

/-- Brzozowski derivative: what remains to be matched after reading `c`. -/
def deriv : Regex → Char → Regex
  | nothing, _ => nothing
  | empty, _ => nothing
  | cls rs, c => if inClass rs c then empty else nothing
  | seq a b, c =>
      if a.nullable then alt (seq (a.deriv c) b) (b.deriv c) else seq (a.deriv c) b
  | alt a b, c => alt (a.deriv c) (b.deriv c)
  | star a, c => seq (a.deriv c) (star a)

/-- The whole text is matched by `r`: what `^r$` asks of a text. -/
def fullMatch (r : Regex) : List Char → Bool
  | [] => r.nullable
  | c :: cs => (r.deriv c).fullMatch cs

/-- Some leading part of the text is matched by `r`. -/
def matchesHead (r : Regex) : List Char → Bool
  | [] => r.nullable
  | c :: cs => r.nullable || (r.deriv c).matchesHead cs

/-- Some contiguous part of the text is matched by `r`: an unanchored search,
as `regexp.MatchString` does for a pattern without `^` and `$`. -/
def search (r : Regex) : List Char → Bool
  | [] => r.nullable
  | c :: cs => r.matchesHead (c :: cs) || r.search cs

/-- The language of the expression. -/
def lang : Regex → Language Char
  | nothing => 0
  | empty => 1
  | cls rs => {s | ∃ c, inClass rs c = true ∧ s = [c]}
  | seq a b => a.lang * b.lang
  | alt a b => a.lang + b.lang
  | star a => KStar.kstar a.lang

end Regex

/-! ## Constants of `project.go` -/

/-- Go `const projectNameMaxLen int = 30`. -/
def projectNameMaxLen : Int := 30

/-- Go `const projectNameMinLen int = 2`. -/
def projectNameMinLen : Int := 2

/-- The class `[a-z0-9]`. -/
def lowerAlnum : Regex := .cls [('a', 'z'), ('0', '9')]

/-- The class `[._-]`. -/
def nameSeparator : Regex := .cls [('.', '.'), ('_', '_'), ('-', '-')]

/-- The Perl class `\w`, which Go reads as `[0-9A-Za-z_]`. -/
def wordClass : Regex := .cls [('0', '9'), ('A', 'Z'), ('a', 'z'), ('_', '_')]

/-- Go `const restrictedNameChars`, the pattern `[a-z0-9]+(?:[._-][a-z0-9]+)*`. -/
def restrictedNameChars : Regex :=
  .seq (.plus lowerAlnum) (.star (.seq nameSeparator (.plus lowerAlnum)))

/-- Go `const dupProjectPattern`, the pattern
`Duplicate entry '\w+' for key 'name'`. -/
def dupProjectPattern : Regex :=
  .seq (.str "Duplicate entry '")
    (.seq (.plus wordClass) (.str "' for key 'name'"))

/-- Go `len(s)` for a string: its length in bytes (UTF-8). -/
def len (s : String) : Int := s.utf8ByteSize

/-- The request body of create and toggle: `type projectReq struct`. -/
structure projectReq where
  ProjectName : String
  Public : Int
  deriving DecidableEq, Repr

/-- Modelled from the spec: `isIllegalLength` is a helper of package `api` declared
in another file; the spec says the name length must be within `[min, max]`
inclusive, so a length is illegal when it is below `min` or above `max`. -/
def isIllegalLength (s : String) (min max : Int) : Bool :=
  decide (len s < min) || decide (len s > max)

/-- The message of the error `validateProjectReq` returns for a bad length. -/
def errIllegalLength : String :=
  "Project name is illegal in length. (greater than 2 or less than 30)"

/-- The message of the error `validateProjectReq` returns for a bad character. -/
def errIllegalChars : String :=
  "project name is not in lower case or contains illegal characters"

/-- Go `func validateProjectReq(req projectReq) error`; `none` is `nil`, an error
is given by its message. The pattern compiled is `^` + restrictedNameChars + `$`,
which has no top-level alternation, so the anchors ask for a match of the whole
name. -/
def validateProjectReq (req : projectReq) : Option String :=
  let pn := req.ProjectName
  if isIllegalLength req.ProjectName projectNameMinLen projectNameMaxLen then
    some errIllegalLength
  else
    let legal := restrictedNameChars.fullMatch pn.data
    if !legal then some errIllegalChars else none

/-! ## Go library functions used by the handlers -/

/-- Go `http.StatusText` for the codes the file passes to it. -/
def StatusText (code : Nat) : String :=
  if code = 500 then "Internal Server Error"
  else if code = 401 then "Unauthorized"
  else if code = 404 then "Not Found"
  else ""

/-- The value of a text of decimal digits; `none` when it is empty or holds
another rune (Go `strconv.ParseUint` in base 10, without its range check). -/
def parseDigits : List Char → Option Nat
  | [] => none
  | cs => cs.foldl
      (fun acc c =>
        match acc with
        | none => none
        | some n =>
          if decide ('0'.toNat ≤ c.toNat) && decide (c.toNat ≤ '9'.toNat)
          then some (10 * n + (c.toNat - '0'.toNat)) else none)
      (some 0)

/-- Go `strconv.ParseInt(s, 10, 64)`: the value and the error (`none` is `nil`).
An optional sign, then decimal digits; out of the 64-bit range the nearest bound
is returned together with a range error. -/
def ParseInt (s : String) : Int × Option String :=
  match s.data with
  | [] => (0, some "invalid syntax")
  | c :: cs =>
    let neg := c == '-'
    let digits := if c == '+' || c == '-' then cs else c :: cs
    match parseDigits digits with
    | none => (0, some "invalid syntax")
    | some un =>
      if !neg && decide (un ≥ 2 ^ 63) then (2 ^ 63 - 1, some "value out of range")
      else if neg && decide (un > 2 ^ 63) then (-(2 ^ 63), some "value out of range")
      else (if neg then -(un : Int) else (un : Int), none)

/-- Go `strconv.Atoi` on a 64-bit platform: `ParseInt(s, 10, 0)` as an `int`. -/
def Atoi (s : String) : Int × Option String := ParseInt s

/-- A mathematical integer reduced to Go `int64` (two's complement, 64 bits). -/
def wrapInt64 (x : Int) : Int := (x + 2 ^ 63) % 2 ^ 64 - 2 ^ 63

/-- Go `a - b` on `int64`. -/
def subInt64 (a b : Int) : Int := wrapInt64 (a - b)

/-- Go `a * b` on `int64`. -/
def mulInt64 (a b : Int) : Int := wrapInt64 (a * b)

/-! ## Data of the collaborators -/

/-- The fields of `models.Project` that `project.go` reads or writes. -/
structure Project where
  ProjectID : Int := 0
  OwnerID : Int := 0
  Name : String := ""
  CreationTime : Int := 0
  Public : Int := 0
  Role : Int := 0
  Togglable : Bool := false
  RepoCount : Int := 0
  deriving DecidableEq, Repr

/-- The field of `models.Role` that `project.go` reads. -/
structure Role where
  RoleID : Int
  deriving DecidableEq, Repr

/-- The fields of `models.User` that `project.go` reads or writes. -/
structure User where
  UserID : Int := 0
  Username : String := ""
  deriving DecidableEq, Repr

/-- The fields of `models.AccessLog` that `Post` and `Delete` fill in. -/
structure AccessLog where
  Username : String := ""
  ProjectID : Int := 0
  RepoName : String := ""
  RepoTag : String := ""
  GUID : String := ""
  Operation : String := ""
  OpTime : Int := 0
  deriving DecidableEq, Repr

/-- A call a handler makes to a collaborator (the data-access layer `dao`, the
configuration, helpers of package `api` declared in other files, the logger), with
the arguments it passes. Variadic arguments are listed as passed. -/
inductive Call where
  | ValidateUser
  | DecodeJSONReq
  | validateProjectReq (req : projectReq)
  | OnlyAdminCreateProject
  | IsAdminRole (userID : Int)
  | ProjectExists (name : String)
  | AddProject (project : Project)
  | GetProjectByID (id : Int)
  | GetProjectByName (name : String)
  | DeleteProject (id : Int)
  | ToggleProjectPublicity (id : Int) (pub : Int)
  | GetTotalOfProjects (name : String) (args : List Int)
  | GetProjects (name : String) (args : List Int)
  | GetTotalOfUserRelevantProjects (userID : Int) (name : String)
  | GetUserRelevantProjects (userID : Int) (name : String) (args : List Int)
  | GetUserProjectRoles (userID : Int) (projectID : Int)
  | GetRepositoryByProjectName (name : String)
  | getReposByProject (name : String)
  | GetRepPolicyByProject (id : Int)
  | checkProjectPermission (userID : Int) (projectID : Int)
  | hasProjectAdminRole (userID : Int) (projectID : Int)
  | GetUser (user : User)
  | AddAccessLog (entry : AccessLog)
  | Errorf (format : String)
  | Warningf (format : String)
  deriving DecidableEq, Repr

/-- What a handler wrote to the response. -/
inductive Response where
  /-- `CustomAbort(status, body)`: the status and body are written and the handler
  stops (a panic the framework recovers). -/
  | abort (status : Nat) (body : String)
  /-- `RenderError(status, text)`. -/
  | error (status : Nat) (text : String)
  /-- `Redirect(status, location)`. -/
  | redirect (status : Nat) (location : String)
  /-- `Data["json"] = project; ServeJSON()`. -/
  | project (p : Project)
  /-- `SetPaginationHeader(total, page, pageSize); Data["json"] = list; ServeJSON()`. -/
  | projects (total page pageSize : Int) (list : List Project)
  /-- A nil pointer was dereferenced (a runtime panic). -/
  | nilDereference
  deriving DecidableEq, Repr

/-- The answers of the collaborators and the content of the request. A Go result
`(value, error)` is a pair whose second component is `none` for `nil`. -/
structure Env where
  /-- The path parameter: `p.Ctx.Input.Param(":id")`. -/
  paramId : String := ""
  /-- The query parameter: `p.GetString("project_name")`. -/
  paramProjectName : String := ""
  /-- The query parameter: `p.GetString("is_public")`. -/
  paramIsPublic : String := ""
  /-- The request body as `DecodeJSONReq` decodes it. -/
  body : projectReq := ⟨"", 0⟩
  /-- The results of `p.GetPaginationParams()`. -/
  page : Int := 1
  pageSize : Int := 10
  /-- The result of `p.ValidateUser()`: the id of the authenticated user, or, when
  no user is authenticated, the body of the response it aborts the request with. -/
  ValidateUser : Except String Int := .error ""
  /-- The readings of `time.Now()`: for the record created, and in the audit task. -/
  now : Int := 0
  auditNow : Int := 0
  /-- The constant `models.PROJECTADMIN`. -/
  PROJECTADMIN : Int := 1
  OnlyAdminCreateProject : Bool × Option String := (false, none)
  IsAdminRole : Int → Bool × Option String := fun _ => (false, none)
  ProjectExists : String → Bool × Option String := fun _ => (false, none)
  AddProject : Project → Int × Option String := fun _ => (1, none)
  GetProjectByID : Int → Option Project × Option String := fun _ => (none, none)
  GetProjectByName : String → Option Project × Option String := fun _ => (none, none)
  DeleteProject : Int → Option String := fun _ => none
  ToggleProjectPublicity : Int → Int → Option String := fun _ _ => none
  GetTotalOfProjects : String → List Int → Int × Option String := fun _ _ => (0, none)
  GetProjects : String → List Int → List Project × Option String := fun _ _ => ([], none)
  GetTotalOfUserRelevantProjects : Int → String → Int × Option String :=
    fun _ _ => (0, none)
  GetUserRelevantProjects : Int → String → List Int → List Project × Option String :=
    fun _ _ _ => ([], none)
  GetUserProjectRoles : Int → Int → List Role × Option String := fun _ _ => ([], none)
  GetRepositoryByProjectName : String → List String × Option String :=
    fun _ => ([], none)
  getReposByProject : String → List String × Option String := fun _ => ([], none)
  GetRepPolicyByProject : Int → List Int × Option String := fun _ => ([], none)
  checkProjectPermission : Int → Int → Bool := fun _ _ => false
  hasProjectAdminRole : Int → Int → Bool := fun _ _ => false
  GetUser : User → Option User × Option String := fun u => (some u, none)
  AddAccessLog : AccessLog → Option String := fun _ => none

/-! ## The handler monad -/

/-- The state of one request: the calls made so far, what was written to the
response, the calls and response writes of the background task the handler
started, and the fields of `ProjectAPI`. -/
structure St where
  calls : List Call := []
  resp : Option Response := none
  started : Bool := false
  taskCalls : List Call := []
  taskResp : Option Response := none
  userID : Int := 0
  projectID : Int := 0
  projectName : String := ""
  deriving DecidableEq, Repr

/-- How a computation ends: it returns a value, or it was aborted. -/
inductive Res (α : Type) where
  | ret (a : α) (s : St)
  | aborted (s : St)

/-- The final state. -/
def Res.state {α : Type} : Res α → St
  | .ret _ s => s
  | .aborted s => s

/-- Whether the computation was aborted. -/
def Res.isAborted {α : Type} : Res α → Bool
  | .ret _ _ => false
  | .aborted _ => true

/-- A handler step: a function of the request state. -/
def H (α : Type) : Type := St → Res α

/-- Sequencing: an abort ends the handler. -/
def H.bind {α β : Type} (m : H α) (f : α → H β) : H β := fun s =>
  match m s with
  | .ret a s1 => f a s1
  | .aborted s1 => .aborted s1

instance : Monad H where
  pure a := fun s => .ret a s
  bind := H.bind

/-- Record a call to a collaborator. -/
def call (c : Call) : H Unit := fun s => .ret () { s with calls := s.calls ++ [c] }

/-- Go `p.CustomAbort(status, body)`. -/
def CustomAbort {α : Type} (status : Nat) (body : String) : H α := fun s =>
  .aborted { s with resp := some (.abort status body) }

/-- Go `p.RenderError(status, text)`. -/
def RenderError (status : Nat) (text : String) : H Unit := fun s =>
  .ret () { s with resp := some (.error status text) }

/-- Go `p.Redirect(status, location)`. -/
def Redirect (status : Nat) (location : String) : H Unit := fun s =>
  .ret () { s with resp := some (.redirect status location) }

/-- Go `p.Data["json"] = v; p.ServeJSON()` and the pagination header before it. -/
def Serve (r : Response) : H Unit := fun s => .ret () { s with resp := some r }

/-- The dereference of a pointer that may be nil. -/
def deref {α : Type} : Option α → H α
  | some a => fun s => .ret a s
  | none => fun s => .aborted { s with resp := some .nilDereference }

/-- Read the fields of `ProjectAPI`. -/
def getSt : H St := fun s => .ret s s

/-- Go `p.userID = v`. -/
def setUserID (v : Int) : H Unit := fun s => .ret () { s with userID := v }

/-- Go `p.projectID = v`. -/
def setProjectID (v : Int) : H Unit := fun s => .ret () { s with projectID := v }

/-- Go `p.projectName = v`. -/
def setProjectName (v : String) : H Unit := fun s => .ret () { s with projectName := v }

/-- Go `go func() { body }()`: the task runs beside the handler, on the same
`ProjectAPI`; its calls and what it writes to the response are kept apart from
the handler's. -/
def go (body : H Unit) : H Unit := fun s =>
  let r := (body { s with calls := [], resp := none }).state
  .ret () { s with started := true, taskCalls := r.calls, taskResp := r.resp }

/-- Go `log.Errorf(format, ...)`. -/
def Errorf (format : String) : H Unit := call (.Errorf format)

/-- Go `log.Warningf(format, ...)`. -/
def Warningf (format : String) : H Unit := call (.Warningf format)

/-- Modelled from the spec: `ValidateUser` is a method of `api.BaseAPI`, declared in
another file; the spec gives it as `ValidateUser() -> userID | aborts request`,
and answers a caller without identity `Unauthorized` (status 401). -/
def ValidateUser (env : Env) : H Int := do
  call .ValidateUser
  match env.ValidateUser with
  | .ok userID => pure userID
  | .error body => CustomAbort 401 body

/-- Modelled from the spec: `DecodeJSONReq` is a method of `api.BaseAPI`, declared in
another file; the spec gives it as the decoding of the JSON body into the request
shape `project_name`, `public`. -/
def DecodeJSONReq (env : Env) : H projectReq := do
  call .DecodeJSONReq
  pure env.body

/-- A call to a collaborator that returns its answer. -/
def ask {α : Type} (c : Call) (answer : α) : H α := do
  call c
  pure answer

/-! ## The handlers of `project.go` -/

/-- Go `func (p *ProjectAPI) Prepare()`. -/
def ProjectAPI.Prepare (env : Env) : H Unit := do
  let idStr := env.paramId
  if len idStr > 0 then
    let r := ParseInt idStr
    setProjectID r.1
    if r.2.isSome then
      Errorf "Error parsing project id: %s, error: %v"
      CustomAbort 400 "invalid project id"
    let p ← getSt
    let r ← ask (.GetProjectByID p.projectID) (env.GetProjectByID p.projectID)
    if r.2.isSome then
      Errorf "failed to get project %d: %v"
      CustomAbort 500 "Internal error."
    match r.1 with
    | none => CustomAbort 404 ("project does not exist, id: " ++ toString p.projectID)
    | some project => setProjectName project.Name
  else
    pure ()

/-- The body of the task `Post` starts with `go func() { ... }()`. -/
def PostAudit (env : Env) (projectID : Int) (project : Project) : H Unit := do
  let p ← getSt
  let r ← ask (.GetUser { UserID := p.userID }) (env.GetUser { UserID := p.userID })
  if r.2.isSome then
    Errorf "failed to get user by ID %d: %v"
    CustomAbort 500 (StatusText 500)
  let user ← deref r.1
  let accessLog : AccessLog :=
    { Username := user.Username
      ProjectID := projectID
      RepoName := project.Name ++ "/"
      RepoTag := "N/A"
      GUID := "N/A"
      Operation := "create"
      OpTime := env.auditNow }
  let err ← ask (.AddAccessLog accessLog) (env.AddAccessLog accessLog)
  if err.isSome then
    Errorf "failed to add access log: %v"
    CustomAbort 500 (StatusText 500)

/-- Go `func (p *ProjectAPI) Post()`. -/
def ProjectAPI.Post (env : Env) : H Unit := do
  let userID ← ValidateUser env
  setUserID userID
  let r ← ask (.IsAdminRole userID) (env.IsAdminRole userID)
  let isSysAdmin := r.1
  if r.2.isSome then
    Errorf "Failed to check admin role: %v"
  let r ← ask .OnlyAdminCreateProject env.OnlyAdminCreateProject
  let onlyAdmin := r.1
  if r.2.isSome then
    Errorf "failed to determine whether only admin can create projects: %v"
    CustomAbort 500 (StatusText 500)
  if !isSysAdmin && onlyAdmin then
    Errorf "Only sys admin can create project"
    RenderError 403 "Only system admin can create project"
  else
    let req ← DecodeJSONReq env
    let pub := req.Public
    let err ← ask (.validateProjectReq req) (validateProjectReq req)
    match err with
    | some e =>
      Errorf "Invalid project request, error: %v"
      RenderError 400 ("invalid request: " ++ e)
    | none =>
      let projectName := req.ProjectName
      let r ← ask (.ProjectExists projectName) (env.ProjectExists projectName)
      let exist := r.1
      if r.2.isSome then
        Errorf "Error happened checking project existence in db, error: %v, project name: %s"
      if exist then
        RenderError 409 ""
      else
        let project : Project :=
          { OwnerID := userID, Name := projectName, CreationTime := env.now, Public := pub }
        let r ← ask (.AddProject project) (env.AddProject project)
        let projectID := r.1
        match r.2 with
        | some e =>
          Errorf "Failed to add project, error: %v"
          let dup := dupProjectPattern.search e.data
          if dup then
            RenderError 409 ""
          else
            RenderError 500 "Failed to add project"
        | none =>
          go (PostAudit env projectID project)
          Redirect 201 (toString projectID)

/-- Go `func (p *ProjectAPI) Head()`. -/
def ProjectAPI.Head (env : Env) : H Unit := do
  let projectName := env.paramProjectName
  if len projectName = 0 then
    CustomAbort 400 "project_name is needed"
  let r ← ask (.GetProjectByName projectName) (env.GetProjectByName projectName)
  if r.2.isSome then
    Errorf "error occurred in GetProjectByName: %v"
    CustomAbort 500 (StatusText 500)
  let project := r.1
  if (match project with
      | some pr => decide (pr.Public = 1)
      | none => false) then
    pure ()
  else
    let _ ← ValidateUser env
    if project.isNone then
      CustomAbort 404 (StatusText 404)

/-- Go `func (p *ProjectAPI) Get()`. -/
def ProjectAPI.Get (env : Env) : H Unit := do
  let p ← getSt
  let r ← ask (.GetProjectByID p.projectID) (env.GetProjectByID p.projectID)
  if r.2.isSome then
    Errorf "failed to get project %d: %v"
    CustomAbort 500 (StatusText 500)
  let project ← deref r.1
  if project.Public = 0 then
    let userID ← ValidateUser env
    let allowed ← ask (.checkProjectPermission userID p.projectID)
      (env.checkProjectPermission userID p.projectID)
    if !allowed then
      CustomAbort 401 (StatusText 401)
  Serve (.project project)

/-- Go `func projectContainsRepo(name string) (bool, error)`. -/
def projectContainsRepo (env : Env) (name : String) : H (Bool × Option String) := do
  let r ← ask (.getReposByProject name) (env.getReposByProject name)
  if r.2.isSome then
    pure (false, r.2)
  else
    pure (decide (r.1.length > 0), none)

/-- Go `func projectContainsPolicy(id int64) (bool, error)`. -/
def projectContainsPolicy (env : Env) (id : Int) : H (Bool × Option String) := do
  let r ← ask (.GetRepPolicyByProject id) (env.GetRepPolicyByProject id)
  if r.2.isSome then
    pure (false, r.2)
  else
    pure (decide (r.1.length > 0), none)

/-- The body of the task `Delete` starts with `go func() { ... }()`. -/
def DeleteAudit (env : Env) (userID : Int) : H Unit := do
  let r ← ask (.GetUser { UserID := userID }) (env.GetUser { UserID := userID })
  if r.2.isSome then
    Errorf "failed to get user by ID %d: %v"
    CustomAbort 500 (StatusText 500)
  let user ← deref r.1
  let p ← getSt
  let entry : AccessLog :=
    { Username := user.Username
      ProjectID := p.projectID
      RepoName := p.projectName ++ "/"
      RepoTag := "N/A"
      Operation := "delete"
      OpTime := env.auditNow }
  let err ← ask (.AddAccessLog entry) (env.AddAccessLog entry)
  if err.isSome then
    Errorf "failed to add access log: %v"

/-- Go `func (p *ProjectAPI) Delete()`. -/
def ProjectAPI.Delete (env : Env) : H Unit := do
  let p ← getSt
  if p.projectID = 0 then
    CustomAbort 400 "project ID is required"
  let userID ← ValidateUser env
  let admin ← ask (.hasProjectAdminRole userID p.projectID)
    (env.hasProjectAdminRole userID p.projectID)
  if !admin then
    CustomAbort 403 ""
  let r ← projectContainsRepo env p.projectName
  if r.2.isSome then
    Errorf "failed to check whether project %s contains any repository: %v"
    CustomAbort 500 ""
  if r.1 then
    CustomAbort 412 "project contains repositores, can not be deleted"
  let r ← projectContainsPolicy env p.projectID
  if r.2.isSome then
    Errorf "failed to check whether project %s contains any policy: %v"
    CustomAbort 500 ""
  if r.1 then
    CustomAbort 412 "project contains policies, can not be deleted"
  let err ← ask (.DeleteProject p.projectID) (env.DeleteProject p.projectID)
  if err.isSome then
    Errorf "failed to delete project %d: %v"
    CustomAbort 500 ""
  go (DeleteAudit env userID)

/-- The body of the loop of `List` for one project of the page. -/
def listEntry (env : Env) (pub : Int) (isAdmin : Bool) (project : Project) : H Project := do
  let project ←
    if pub ≠ 1 then do
      let p ← getSt
      let r ← ask (.GetUserProjectRoles p.userID project.ProjectID)
        (env.GetUserProjectRoles p.userID project.ProjectID)
      if r.2.isSome then
        Errorf "failed to get user's project role: %v"
        CustomAbort 500 ""
      let project : Project :=
        match r.1 with
        | role :: _ => { project with Role := role.RoleID }
        | [] => project
      if project.Role = env.PROJECTADMIN || isAdmin then
        pure { project with Togglable := true }
      else
        pure project
    else
      pure project
  let r ← ask (.GetRepositoryByProjectName project.Name)
    (env.GetRepositoryByProjectName project.Name)
  if r.2.isSome then
    Errorf "failed to get repositories of project %s: %v"
    CustomAbort 500 ""
  pure { project with RepoCount := r.1.length }

/-- The loop `for i := 0; i < len(projectList); i++` of `List`. -/
def listLoop (env : Env) (pub : Int) (isAdmin : Bool) : List Project → H (List Project)
  | [] => pure []
  | project :: rest => do
    let first ← listEntry env pub isAdmin project
    let others ← listLoop env pub isAdmin rest
    pure (first :: others)

/-- Go `func (p *ProjectAPI) List()`. -/
def ProjectAPI.List (env : Env) : H Unit := do
  let page := env.page
  let pageSize := env.pageSize
  let projectName := env.paramProjectName
  let isPublic := env.paramIsPublic
  let pub ←
    if len isPublic > 0 then do
      let r := Atoi isPublic
      if r.2.isSome then
        Errorf "Error parsing public property: %v, error: %v"
        CustomAbort 400 "invalid project Id"
      pure r.1
    else
      pure (0 : Int)
  let offset := mulInt64 pageSize (subInt64 page 1)
  let found ←
    if pub = 1 then do
      let t ← ask (.GetTotalOfProjects projectName [1]) (env.GetTotalOfProjects projectName [1])
      if t.2.isSome then
        Errorf "failed to get total of projects: %v"
        CustomAbort 500 ""
      let l ← ask (.GetProjects projectName [1, pageSize, offset])
        (env.GetProjects projectName [1, pageSize, offset])
      if l.2.isSome then
        Errorf "failed to get projects: %v"
        CustomAbort 500 ""
      pure (t.1, l.1, false)
    else do
      let userID ← ValidateUser env
      setUserID userID
      let a ← ask (.IsAdminRole userID) (env.IsAdminRole userID)
      if a.2.isSome then
        Errorf "Error occured in check admin, error: %v"
        CustomAbort 500 "Internal error."
      if a.1 then
        let t ← ask (.GetTotalOfProjects projectName []) (env.GetTotalOfProjects projectName [])
        if t.2.isSome then
          Errorf "failed to get total of projects: %v"
          CustomAbort 500 ""
        let l ← ask (.GetProjects projectName [pageSize, offset])
          (env.GetProjects projectName [pageSize, offset])
        if l.2.isSome then
          Errorf "failed to get projects: %v"
          CustomAbort 500 ""
        pure (t.1, l.1, true)
      else
        let t ← ask (.GetTotalOfUserRelevantProjects userID projectName)
          (env.GetTotalOfUserRelevantProjects userID projectName)
        if t.2.isSome then
          Errorf "failed to get total of projects: %v"
          CustomAbort 500 ""
        let l ← ask (.GetUserRelevantProjects userID projectName [pageSize, offset])
          (env.GetUserRelevantProjects userID projectName [pageSize, offset])
        if l.2.isSome then
          Errorf "failed to get projects: %v"
          CustomAbort 500 ""
        pure (t.1, l.1, false)
  let total := found.1
  let isAdmin := found.2.2
  let projectList ← listLoop env pub isAdmin found.2.1
  Serve (.projects total page pageSize projectList)

/-- Go `func isProjectAdmin(userID int, pid int64) bool`. -/
def isProjectAdmin (env : Env) (userID : Int) (pid : Int) : H Bool := do
  let r ← ask (.IsAdminRole userID) (env.IsAdminRole userID)
  if r.2.isSome then
    Errorf "Error occurred in IsAdminRole, returning false, error: %v"
    pure false
  else if r.1 then
    pure true
  else
    let l ← ask (.GetUserProjectRoles userID pid) (env.GetUserProjectRoles userID pid)
    if l.2.isSome then
      Errorf "Error occurred in GetUserProjectRoles, returning false, error: %v"
      pure false
    else
      pure (l.1.any (fun role => decide (role.RoleID = env.PROJECTADMIN)))

/-- Go `func (p *ProjectAPI) ToggleProjectPublic()`. -/
def ProjectAPI.ToggleProjectPublic (env : Env) : H Unit := do
  let userID ← ValidateUser env
  setUserID userID
  let r := ParseInt env.paramId
  let projectID := r.1
  if r.2.isSome then
    Errorf "Error parsing project id: %d, error: %v"
    RenderError 400 "invalid project id"
  else
    let req ← DecodeJSONReq env
    let pub := req.Public
    let admin ← isProjectAdmin env userID projectID
    if !admin then
      Warningf "Current user, id: %d does not have project admin role for project, id: %d"
      RenderError 403 ""
    else
      let p ← getSt
      let err ← ask (.ToggleProjectPublicity p.projectID pub)
        (env.ToggleProjectPublicity p.projectID pub)
      if err.isSome then
        Errorf "Error while updating project, project id: %d, error: %v"
        RenderError 500 "Failed to update project"

/-- One request as the framework serves it: `Prepare`, then the handler. -/
def serve (env : Env) (handler : Env → H Unit) : Res Unit :=
  (do ProjectAPI.Prepare env; handler env : H Unit) {}

/-! ## The reference definition of project-name validation

Written from the words of the specification, to be compared with
`validateProjectReq`. -/

/-- A rune of `[a-z0-9]`. -/
def isLowerAlnumRune (c : Char) : Bool :=
  (decide ('a'.toNat ≤ c.toNat) && decide (c.toNat ≤ 'z'.toNat)) ||
    (decide ('0'.toNat ≤ c.toNat) && decide (c.toNat ≤ '9'.toNat))

/-- One of the separators `.`, `_` and `-`. -/
def isSeparatorRune (c : Char) : Bool := c == '.' || c == '_' || c == '-'

/-- An uppercase letter `A` to `Z`. -/
def isUpperRune (c : Char) : Bool :=
  decide ('A'.toNat ≤ c.toNat) && decide (c.toNat ≤ 'Z'.toNat)

/-- The name cut at every separator: the run before the first separator, and the
runs after each separator, in order. A run is empty where the name starts or ends
with a separator and where two separators are adjacent. -/
def splitRuns : List Char → List Char × List (List Char)
  | [] => ([], [])
  | c :: cs =>
    if isSeparatorRune c then ([], (splitRuns cs).1 :: (splitRuns cs).2)
    else (c :: (splitRuns cs).1, (splitRuns cs).2)

/-- A non-empty run of `[a-z0-9]`. -/
def isRun (r : List Char) : Bool := !r.isEmpty && r.all isLowerAlnumRune

/-- The whole name is one or more non-empty runs of `[a-z0-9]` joined by single
separators: every run between separators is a non-empty run of `[a-z0-9]`. -/
def specNameChars (name : List Char) : Bool :=
  isRun (splitRuns name).1 && (splitRuns name).2.all isRun

/-- The reference definition of the validation of a project name. -/
def specValidateName (name : String) : Option String :=
  if len name < 2 ∨ len name > 30 then some errIllegalLength
  else if specNameChars name.data then none
  else some errIllegalChars

/-- The expression left of `restrictedNameChars` once a rune of a run was read:
`[a-z0-9]*(?:[._-][a-z0-9]+)*`. -/
def restrictedNameTail : Regex :=
  .seq (.star lowerAlnum) (.star (.seq nameSeparator (.plus lowerAlnum)))

/-! ## Reading an outcome -/

/-- The HTTP status of what was written to the response; a handler that returns
without writing answers 200, a runtime panic is answered 500. -/
def statusOf : Option Response → Nat
  | none => 200
  | some (.abort status _) => status
  | some (.error status _) => status
  | some (.redirect status _) => status
  | some (.project _) => 200
  | some (.projects _ _ _ _) => 200
  | some .nilDereference => 500

/-- The call is the validation of the request. -/
def Call.isValidation : Call → Bool
  | .validateProjectReq _ => true
  | _ => false

/-- The call is the check that a project of the name exists. -/
def Call.isExistenceCheck : Call → Bool
  | .ProjectExists _ => true
  | _ => false

/-- The call is the insert of a project. -/
def Call.isInsert : Call → Bool
  | .AddProject _ => true
  | _ => false

/-- The call is the delete of a project. -/
def Call.isDelete : Call → Bool
  | .DeleteProject _ => true
  | _ => false

/-- The call is the update of the visibility flag. -/
def Call.isUpdate : Call → Bool
  | .ToggleProjectPublicity _ _ => true
  | _ => false

/-- The call queries the projects: a total count or a page. -/
def Call.isProjectQuery : Call → Bool
  | .GetTotalOfProjects _ _ => true
  | .GetProjects _ _ => true
  | .GetTotalOfUserRelevantProjects _ _ => true
  | .GetUserRelevantProjects _ _ _ => true
  | _ => false

/-- The caller may administer the project: a system admin, or a holder of the
`PROJECTADMIN` role on it; not when a role lookup fails. The value `isProjectAdmin`
computes, as a function of the answers of the data-access layer. -/
def canAdminister (env : Env) (userID : Int) (pid : Int) : Bool :=
  if (env.IsAdminRole userID).2.isSome then false
  else if (env.IsAdminRole userID).1 then true
  else if (env.GetUserProjectRoles userID pid).2.isSome then false
  else (env.GetUserProjectRoles userID pid).1.any
    (fun role => decide (role.RoleID = env.PROJECTADMIN))

/-- The calls `isProjectAdmin` makes, in order. -/
def isProjectAdminCalls (env : Env) (userID : Int) (pid : Int) : List Call :=
  (isProjectAdmin env userID pid {}).state.calls

/-! ## Concrete requests -/

/-- The project the concrete requests below address by the path id `5`. -/
def sampleProject : Project := { ProjectID := 5, OwnerID := 7, Name := "library", Public := 0 }

/-- A caller who is no system admin creates `team-alpha` with `public = 0` while
only system admins may create projects. -/
def envCreateForbidden : Env :=
  { body := ⟨"team-alpha", 0⟩
    ValidateUser := .ok 7
    OnlyAdminCreateProject := (true, none)
    IsAdminRole := fun _ => (false, none) }

/-- The insert of the valid name `my-project` fails with the uniqueness violation
of the store. -/
def envCreateDuplicateDash : Env :=
  { body := ⟨"my-project", 0⟩
    ValidateUser := .ok 7
    AddProject := fun _ => (0, some "Duplicate entry 'my-project' for key 'name'") }

/-- The insert of the valid name `my_project` fails with the uniqueness violation
of the store. -/
def envCreateDuplicateWord : Env :=
  { body := ⟨"my_project", 0⟩
    ValidateUser := .ok 7
    AddProject := fun _ => (0, some "Duplicate entry 'my_project' for key 'name'") }

/-- The name-existence check of a create fails in the store. -/
def envCreateExistsFails : Env :=
  { body := ⟨"team-alpha", 0⟩
    ValidateUser := .ok 7
    ProjectExists := fun _ => (false, some "connection refused")
    AddProject := fun _ => (12, none) }

/-- The system-admin lookup of a create fails in the store. -/
def envCreateAdminLookupFails : Env :=
  { body := ⟨"team-alpha", 0⟩
    ValidateUser := .ok 7
    IsAdminRole := fun _ => (false, some "connection refused")
    AddProject := fun _ => (12, none) }

/-- A create succeeds and the user lookup of its audit task fails. -/
def envCreateAuditUserFails : Env :=
  { body := ⟨"team-alpha", 0⟩
    ValidateUser := .ok 7
    AddProject := fun _ => (12, none)
    GetUser := fun _ => (none, some "connection refused") }

/-- A create succeeds and the access-log append of its audit task fails. -/
def envCreateAuditLogFails : Env :=
  { body := ⟨"team-alpha", 0⟩
    ValidateUser := .ok 7
    AddProject := fun _ => (12, none)
    AddAccessLog := fun _ => some "connection refused" }

/-- A create succeeds and so does its audit task. -/
def envCreateAuditOk : Env :=
  { body := ⟨"team-alpha", 0⟩
    ValidateUser := .ok 7
    AddProject := fun _ => (12, none) }

/-- A project admin deletes project `5`, which has no repository and no policy. -/
def envDeleteOk : Env :=
  { paramId := "5"
    GetProjectByID := fun _ => (some sampleProject, none)
    ValidateUser := .ok 7
    hasProjectAdminRole := fun _ _ => true }

/-- As `envDeleteOk`, and the user lookup of the audit task fails. -/
def envDeleteAuditUserFails : Env :=
  { envDeleteOk with GetUser := fun _ => (none, some "connection refused") }

/-- As `envDeleteOk`, and the access-log append of the audit task fails. -/
def envDeleteAuditLogFails : Env :=
  { envDeleteOk with AddAccessLog := fun _ => some "connection refused" }

/-- A project admin deletes project `5`, which has one repository. -/
def envDeleteWithRepo : Env :=
  { envDeleteOk with getReposByProject := fun _ => (["library/app"], none) }

/-- A project admin deletes project `5`, which has one policy, and the lookup of
its repositories fails in the store. -/
def envDeleteRepoLookupFails : Env :=
  { envDeleteOk with
    getReposByProject := fun _ => ([], some "connection refused")
    GetRepPolicyByProject := fun _ => ([3], none) }

/-- A caller without identity asks to make project `5` public. -/
def envToggleAnonymous : Env :=
  { paramId := "5"
    body := ⟨"", 1⟩
    GetProjectByID := fun _ => (some sampleProject, none)
    ValidateUser := .error "" }

/-- A member of project `5` without the `PROJECTADMIN` role asks to make it public. -/
def envToggleMember : Env :=
  { paramId := "5"
    body := ⟨"", 1⟩
    GetProjectByID := fun _ => (some sampleProject, none)
    ValidateUser := .ok 7
    GetUserProjectRoles := fun _ _ => ([⟨2⟩], none) }

/-- A holder of the `PROJECTADMIN` role on project `5` asks to make it public. -/
def envToggleAdmin : Env :=
  { envToggleMember with GetUserProjectRoles := fun _ _ => ([⟨1⟩], none) }

/-- A caller without identity gets project `5`, whose visibility flag is `2`. -/
def envGetFlagTwo : Env :=
  { paramId := "5"
    paramProjectName := "library"
    GetProjectByID := fun _ => (some { sampleProject with Public := 2 }, none)
    GetProjectByName := fun _ => (some { sampleProject with Public := 2 }, none)
    ValidateUser := .error "" }

/-- A caller without identity probes a name no project has. -/
def envHeadAbsent : Env :=
  { paramProjectName := "library"
    GetProjectByName := fun _ => (none, none)
    ValidateUser := .error "" }

/-- A caller without identity probes the name of a project that is not public. -/
def envHeadPrivate : Env :=
  { paramProjectName := "library"
    GetProjectByName := fun _ => (some sampleProject, none)
    ValidateUser := .error "" }

/-- The second page of ten of the public projects, asked without identity. -/
def envListPublic : Env :=
  { paramIsPublic := "1"
    page := 2
    pageSize := 10
    ValidateUser := .error ""
    GetTotalOfProjects := fun _ _ => (11, none)
    GetProjects := fun _ _ => ([{ sampleProject with Public := 1 }], none) }

/-- The first page of ten of the projects, asked by a system admin. -/
def envListAdmin : Env :=
  { ValidateUser := .ok 7
    IsAdminRole := fun _ => (true, none)
    GetTotalOfProjects := fun _ _ => (1, none)
    GetProjects := fun _ _ => ([sampleProject], none) }

/-! # Properties

## Regular expressions: the matcher decides the language -/

open Regex

theorem Regex.nullable_iff (r : Regex) : r.nullable = true ↔ [] ∈ r.lang := by
  induction r with
  | nothing => simp [nullable, lang]
  | empty => simp [nullable, lang]
  | cls rs =>
    simp only [nullable, lang, Bool.false_eq_true, false_iff]
    rintro ⟨c, _, hc⟩
    exact absurd hc (by simp)
  | seq a b iha ihb =>
    simp only [nullable, lang, Bool.and_eq_true, iha, ihb, Language.mem_mul]
    constructor
    · rintro ⟨h1, h2⟩
      exact ⟨[], h1, [], h2, rfl⟩
    · rintro ⟨x, hx, y, hy, hxy⟩
      have hx0 : x = [] := (List.append_eq_nil.mp hxy).1
      have hy0 : y = [] := (List.append_eq_nil.mp hxy).2
      subst hx0; subst hy0
      exact ⟨hx, hy⟩
  | alt a b iha ihb =>
    simp only [nullable, lang, Bool.or_eq_true, iha, ihb, Language.mem_add]
  | star a _ =>
    simp only [nullable, lang, true_iff]
    exact Language.nil_mem_kstar _

theorem Language.cons_mem_kstar_iff (L : Language Char) (c : Char) (s : List Char) :
    c :: s ∈ KStar.kstar L ↔ ∃ t u, c :: t ∈ L ∧ u ∈ KStar.kstar L ∧ t ++ u = s := by
  constructor
  · intro h
    rw [Language.mem_kstar_iff_exists_nonempty] at h
    obtain ⟨S, hS, hall⟩ := h
    cases S with
    | nil => simp at hS
    | cons y S' =>
      have hy := hall y (List.mem_cons_self _ _)
      cases y with
      | nil => exact absurd rfl hy.2
      | cons d t =>
        simp only [List.flatten_cons, List.cons_append, List.cons.injEq] at hS
        obtain ⟨hc, hs⟩ := hS
        subst hc
        refine ⟨t, S'.flatten, hy.1, ?_, hs.symm⟩
        exact Language.join_mem_kstar (fun z hz => (hall z (List.mem_cons_of_mem _ hz)).1)
  · rintro ⟨t, u, ht, hu, rfl⟩
    obtain ⟨S, hS, hall⟩ := Language.mem_kstar.mp hu
    refine Language.mem_kstar.mpr ⟨(c :: t) :: S, by simp [hS], ?_⟩
    intro y hy
    rcases List.mem_cons.mp hy with h | h
    · rw [h]; exact ht
    · exact hall y h

theorem Regex.deriv_iff (r : Regex) (c : Char) (s : List Char) :
    s ∈ (r.deriv c).lang ↔ c :: s ∈ r.lang := by
  induction r generalizing s with
  | nothing => simp [deriv, lang]
  | empty => simp [deriv, lang]
  | cls rs =>
    by_cases h : inClass rs c = true
    · simp only [deriv, h, if_true, lang, Language.mem_one]
      constructor
      · rintro rfl
        exact ⟨c, h, rfl⟩
      · rintro ⟨d, _, hd⟩
        simp only [List.cons.injEq] at hd
        exact hd.2
    · simp only [deriv, h, lang, Bool.false_eq_true, if_false, Language.not_mem_zero, false_iff]
      rintro ⟨d, hd, hcd⟩
      simp only [List.cons.injEq] at hcd
      rw [hcd.1] at h
      exact h hd
  | seq a b iha ihb =>
    have key : c :: s ∈ a.lang * b.lang ↔
        (∃ t u, c :: t ∈ a.lang ∧ u ∈ b.lang ∧ t ++ u = s) ∨ ([] ∈ a.lang ∧ c :: s ∈ b.lang) := by
      rw [Language.mem_mul]
      constructor
      · rintro ⟨x, hx, y, hy, hxy⟩
        cases x with
        | nil => right; simp at hxy; subst hxy; exact ⟨hx, hy⟩
        | cons d t =>
          simp only [List.cons_append, List.cons.injEq] at hxy
          obtain ⟨hd, ht⟩ := hxy
          subst hd
          left; exact ⟨t, y, hx, hy, ht⟩
      · rintro (⟨t, u, ht, hu, rfl⟩ | ⟨h1, h2⟩)
        · exact ⟨c :: t, ht, u, hu, rfl⟩
        · exact ⟨[], h1, c :: s, h2, rfl⟩
    have hseq : s ∈ (a.deriv c).lang * b.lang ↔ ∃ t u, c :: t ∈ a.lang ∧ u ∈ b.lang ∧ t ++ u = s := by
      rw [Language.mem_mul]
      constructor
      · rintro ⟨x, hx, y, hy, hxy⟩
        exact ⟨x, y, (iha x).mp hx, hy, hxy⟩
      · rintro ⟨t, u, ht, hu, htu⟩
        exact ⟨t, (iha t).mpr ht, u, hu, htu⟩
    by_cases hn : a.nullable = true
    · have h0 := (Regex.nullable_iff a).mp hn
      have hd : (seq a b).deriv c = alt (seq (a.deriv c) b) (b.deriv c) := by
        simp [deriv, hn]
      rw [hd]
      show s ∈ (a.deriv c).lang * b.lang + (b.deriv c).lang ↔ c :: s ∈ a.lang * b.lang
      rw [Language.mem_add, hseq, ihb, key]
      simp only [h0, true_and]
    · have h0 : ¬ [] ∈ a.lang := fun h => hn ((Regex.nullable_iff a).mpr h)
      have hd : (seq a b).deriv c = seq (a.deriv c) b := by
        simp [deriv, hn]
      rw [hd]
      show s ∈ (a.deriv c).lang * b.lang ↔ c :: s ∈ a.lang * b.lang
      rw [hseq, key]
      simp only [h0, false_and, or_false]
  | alt a b iha ihb =>
    simp only [deriv, lang, Language.mem_add, iha, ihb]
  | star a iha =>
    simp only [deriv, lang, Language.cons_mem_kstar_iff, Language.mem_mul]
    constructor
    · rintro ⟨x, hx, y, hy, hxy⟩
      exact ⟨x, y, (iha x).mp hx, hy, hxy⟩
    · rintro ⟨t, u, ht, hu, htu⟩
      exact ⟨t, (iha t).mpr ht, u, hu, htu⟩

theorem Regex.fullMatch_iff (r : Regex) (s : List Char) :
    r.fullMatch s = true ↔ s ∈ r.lang := by
  induction s generalizing r with
  | nil => simp [fullMatch, Regex.nullable_iff]
  | cons c cs ih => simp [fullMatch, ih, Regex.deriv_iff]

theorem charEqOfToNat (c d : Char) (h : c.toNat = d.toNat) : c = d := by
  apply Char.eq_of_val_eq
  apply UInt32.ext
  exact h

theorem inClass_lowerAlnum (c : Char) :
    inClass [('a', 'z'), ('0', '9')] c = isLowerAlnumRune c := by
  simp [inClass, isLowerAlnumRune]

theorem inClass_separator (c : Char) :
    inClass [('.', '.'), ('_', '_'), ('-', '-')] c = isSeparatorRune c := by
  simp only [inClass, isSeparatorRune, List.any_cons, List.any_nil, Bool.or_false]
  rw [Bool.eq_iff_iff]
  simp only [Bool.or_eq_true, Bool.and_eq_true, decide_eq_true_eq, beq_iff_eq]
  constructor
  · rintro (⟨h1, h2⟩ | ⟨h1, h2⟩ | ⟨h1, h2⟩)
    · exact Or.inl (Or.inl (charEqOfToNat _ _ (Nat.le_antisymm h2 h1)))
    · exact Or.inl (Or.inr (charEqOfToNat _ _ (Nat.le_antisymm h2 h1)))
    · exact Or.inr (charEqOfToNat _ _ (Nat.le_antisymm h2 h1))
  · rintro ((h | h) | h) <;> subst h <;> decide

theorem separator_not_alnum (c : Char) (h : isSeparatorRune c = true) :
    isLowerAlnumRune c = false := by
  simp only [isSeparatorRune, Bool.or_eq_true, beq_iff_eq] at h
  rcases h with (h | h) | h <;> subst h <;> decide

theorem upper_not_alnum (c : Char) (h : isUpperRune c = true) :
    isLowerAlnumRune c = false ∧ isSeparatorRune c = false := by
  simp only [isUpperRune, Bool.and_eq_true, decide_eq_true_eq] at h
  have h1 : 'A'.toNat = 65 := by decide
  have h2 : 'Z'.toNat = 90 := by decide
  rw [h1, h2] at h
  constructor
  · have e1 : 'a'.toNat = 97 := by decide
    have e2 : 'z'.toNat = 122 := by decide
    have e3 : '0'.toNat = 48 := by decide
    have e4 : '9'.toNat = 57 := by decide
    simp only [isLowerAlnumRune, e1, e2, e3, e4, Bool.or_eq_false_iff, Bool.and_eq_false_iff,
      decide_eq_false_iff_not]
    omega
  · simp only [isSeparatorRune, Bool.or_eq_false_iff, beq_eq_false_iff_ne, ne_eq]
    refine ⟨⟨?_, ?_⟩, ?_⟩ <;> (intro hc; subst hc; revert h; decide)

/-- The name pattern after one rune: the rune is of `[a-z0-9]` and the rest is
matched by the tail pattern. -/
theorem restrictedNameChars_cons (c : Char) (s : List Char) :
    restrictedNameChars.fullMatch (c :: s)
      = (isLowerAlnumRune c && restrictedNameTail.fullMatch s) := by
  rw [Bool.eq_iff_iff, Bool.and_eq_true, Regex.fullMatch_iff, Regex.fullMatch_iff,
    ← Regex.deriv_iff]
  by_cases h : isLowerAlnumRune c = true
  · have hd : restrictedNameChars.deriv c =
        .seq (.seq .empty (.star lowerAlnum)) (.star (.seq nameSeparator (.plus lowerAlnum))) := by
      simp [restrictedNameChars, Regex.plus, lowerAlnum, Regex.deriv, Regex.nullable,
        inClass_lowerAlnum, h]
    rw [hd]
    simp only [h, true_and, restrictedNameTail, Regex.lang, one_mul]
  · have hd : restrictedNameChars.deriv c =
        .seq (.seq .nothing (.star lowerAlnum)) (.star (.seq nameSeparator (.plus lowerAlnum))) := by
      simp [restrictedNameChars, Regex.plus, lowerAlnum, Regex.deriv, Regex.nullable,
        inClass_lowerAlnum, h]
    rw [hd]
    simp only [h, Bool.false_eq_true, false_and, Regex.lang, zero_mul, Language.not_mem_zero]

theorem restrictedNameChars_nil : restrictedNameChars.fullMatch [] = false := by
  decide

theorem restrictedNameTail_nil : restrictedNameTail.fullMatch [] = true := by
  decide

/-- The tail pattern after one rune: a rune of `[a-z0-9]` continues the run, a
separator starts the name pattern again. -/
theorem restrictedNameTail_cons (c : Char) (s : List Char) :
    restrictedNameTail.fullMatch (c :: s)
      = ((isLowerAlnumRune c && restrictedNameTail.fullMatch s) ||
          (isSeparatorRune c && restrictedNameChars.fullMatch s)) := by
  rw [Bool.eq_iff_iff, Bool.or_eq_true, Bool.and_eq_true, Bool.and_eq_true,
    Regex.fullMatch_iff, Regex.fullMatch_iff, Regex.fullMatch_iff, ← Regex.deriv_iff]
  have hd : restrictedNameTail.deriv c =
      .alt (.seq (.seq (if isLowerAlnumRune c then .empty else .nothing) (.star lowerAlnum))
              (.star (.seq nameSeparator (.plus lowerAlnum))))
           (.seq (.seq (if isSeparatorRune c then .empty else .nothing) (.plus lowerAlnum))
              (.star (.seq nameSeparator (.plus lowerAlnum)))) := by
    simp [restrictedNameTail, Regex.plus, lowerAlnum, nameSeparator, Regex.deriv, Regex.nullable,
      inClass_lowerAlnum, inClass_separator]
  rw [hd]
  by_cases h1 : isLowerAlnumRune c = true <;> by_cases h2 : isSeparatorRune c = true <;>
    simp [h1, h2, restrictedNameTail, restrictedNameChars, Regex.lang, Language.mem_add]

theorem splitRuns_match (s : List Char) :
    restrictedNameChars.fullMatch s = specNameChars s ∧
    restrictedNameTail.fullMatch s
      = ((splitRuns s).1.all isLowerAlnumRune && (splitRuns s).2.all isRun) := by
  induction s with
  | nil => exact ⟨by decide, by decide⟩
  | cons c cs ih =>
    obtain ⟨ih1, ih2⟩ := ih
    rw [restrictedNameChars_cons, restrictedNameTail_cons, ih1, ih2]
    by_cases hs : isSeparatorRune c = true
    · have ha := separator_not_alnum c hs
      simp [specNameChars, splitRuns, isRun, hs, ha]
    · simp only [Bool.not_eq_true] at hs
      simp [specNameChars, splitRuns, isRun, hs, Bool.and_assoc]


/-- Where neither pattern matches a text, neither matches it after any runes. -/
theorem noMatch_append (t : List Char)
    (h1 : restrictedNameChars.fullMatch t = false)
    (h2 : restrictedNameTail.fullMatch t = false) (front : List Char) :
    restrictedNameChars.fullMatch (front ++ t) = false ∧
      restrictedNameTail.fullMatch (front ++ t) = false := by
  induction front with
  | nil => exact ⟨h1, h2⟩
  | cons d ds ih =>
    obtain ⟨i1, i2⟩ := ih
    constructor
    · rw [List.cons_append, restrictedNameChars_cons, i2, Bool.and_false]
    · rw [List.cons_append, restrictedNameTail_cons, i1, i2, Bool.and_false, Bool.and_false,
        Bool.or_false]

/-- A rune outside `[a-z0-9._-]` anywhere in the name: no match. -/
theorem noMatch_of_foreign (front rest : List Char) (c : Char)
    (ha : isLowerAlnumRune c = false) (hs : isSeparatorRune c = false) :
    restrictedNameChars.fullMatch (front ++ c :: rest) = false := by
  refine (noMatch_append (c :: rest) ?_ ?_ front).1
  · rw [restrictedNameChars_cons, ha, Bool.false_and]
  · rw [restrictedNameTail_cons, ha, hs, Bool.false_and, Bool.false_and, Bool.or_false]

/-- A separator at the start of the name: no match. -/
theorem noMatch_of_leading (c : Char) (rest : List Char) (hs : isSeparatorRune c = true) :
    restrictedNameChars.fullMatch (c :: rest) = false := by
  rw [restrictedNameChars_cons, separator_not_alnum c hs, Bool.false_and]

/-- A separator at the end of the name: no match. -/
theorem noMatch_of_trailing (front : List Char) (c : Char) (hs : isSeparatorRune c = true) :
    restrictedNameChars.fullMatch (front ++ [c]) = false := by
  have ha := separator_not_alnum c hs
  refine (noMatch_append [c] ?_ ?_ front).1
  · rw [restrictedNameChars_cons, ha, Bool.false_and]
  · rw [restrictedNameTail_cons, ha, restrictedNameChars_nil, Bool.false_and, Bool.and_false,
      Bool.or_false]

/-- Two adjacent separators in the name: no match. -/
theorem noMatch_of_adjacent (front rest : List Char) (c d : Char)
    (hc : isSeparatorRune c = true) (hd : isSeparatorRune d = true) :
    restrictedNameChars.fullMatch (front ++ c :: d :: rest) = false := by
  have ha := separator_not_alnum c hc
  have hb := separator_not_alnum d hd
  refine (noMatch_append (c :: d :: rest) ?_ ?_ front).1
  · rw [restrictedNameChars_cons, ha, Bool.false_and]
  · rw [restrictedNameTail_cons, ha, restrictedNameChars_cons, hb, Bool.false_and,
      Bool.false_and, Bool.and_false, Bool.or_false]

theorem validateProjectReq_of_noMatch (req : projectReq)
    (hmin : 2 ≤ len req.ProjectName) (hmax : len req.ProjectName ≤ 30)
    (h : restrictedNameChars.fullMatch req.ProjectName.data = false) :
    validateProjectReq req = some errIllegalChars := by
  have hl : isIllegalLength req.ProjectName projectNameMinLen projectNameMaxLen = false := by
    simp only [isIllegalLength, projectNameMinLen, projectNameMaxLen, Bool.or_eq_false_iff,
      decide_eq_false_iff_not]
    omega
  simp [validateProjectReq, hl, h]

/-- C1: `validateProjectReq` equals the reference definition for every project
name: the illegal-length error when the length (Go `len`, in bytes) is below 2 or
above 30; otherwise the illegal-characters error unless the whole name is one or
more non-empty runs of `[a-z0-9]` joined by single `.`, `_` or `-`; otherwise nil.
In particular a name of legal length that holds an uppercase letter, starts or
ends with a separator, or holds two adjacent separators is rejected with the
illegal-characters error, and `my-project_1` is accepted. -/
theorem validateProjectReq_eq_specValidateName :
    (∀ req : projectReq, validateProjectReq req = specValidateName req.ProjectName) ∧
    (∀ req : projectReq, (len req.ProjectName < 2 ∨ len req.ProjectName > 30) →
      validateProjectReq req = some errIllegalLength) ∧
    (∀ req : projectReq, 2 ≤ len req.ProjectName → len req.ProjectName ≤ 30 →
      ((∃ c ∈ req.ProjectName.data, isUpperRune c = true) ∨
        (∃ c rest, req.ProjectName.data = c :: rest ∧ isSeparatorRune c = true) ∨
        (∃ front c, req.ProjectName.data = front ++ [c] ∧ isSeparatorRune c = true) ∨
        (∃ front c d rest, req.ProjectName.data = front ++ c :: d :: rest ∧
          isSeparatorRune c = true ∧ isSeparatorRune d = true)) →
      validateProjectReq req = some errIllegalChars) ∧
    (∀ pub : Int, validateProjectReq ⟨"my-project_1", pub⟩ = none) := by
  refine ⟨?_, ?_, ?_, ?_⟩
  · intro req
    by_cases hl : len req.ProjectName < 2 ∨ len req.ProjectName > 30
    · have hi : isIllegalLength req.ProjectName projectNameMinLen projectNameMaxLen = true := by
        simp only [isIllegalLength, projectNameMinLen, projectNameMaxLen, Bool.or_eq_true,
          decide_eq_true_eq]
        exact hl
      simp [validateProjectReq, specValidateName, hi, hl]
    · have hi : isIllegalLength req.ProjectName projectNameMinLen projectNameMaxLen = false := by
        simp only [isIllegalLength, projectNameMinLen, projectNameMaxLen, Bool.or_eq_false_iff,
          decide_eq_false_iff_not]
        omega
      simp only [validateProjectReq, specValidateName, hi, hl, (splitRuns_match _).1,
        Bool.false_eq_true, if_false]
      cases specNameChars req.ProjectName.data <;> simp
  · intro req hl
    have hi : isIllegalLength req.ProjectName projectNameMinLen projectNameMaxLen = true := by
      simp only [isIllegalLength, projectNameMinLen, projectNameMaxLen, Bool.or_eq_true,
        decide_eq_true_eq]
      exact hl
    simp [validateProjectReq, hi]
  · intro req hmin hmax h
    apply validateProjectReq_of_noMatch req hmin hmax
    rcases h with ⟨c, hmem, hu⟩ | ⟨c, rest, he, hs⟩ | ⟨front, c, he, hs⟩ |
      ⟨front, c, d, rest, he, hc, hd⟩
    · obtain ⟨front, rest, he⟩ := List.append_of_mem hmem
      rw [he]
      exact noMatch_of_foreign front rest c (upper_not_alnum c hu).1 (upper_not_alnum c hu).2
    · rw [he]
      exact noMatch_of_leading c rest hs
    · rw [he]
      exact noMatch_of_trailing front c hs
    · rw [he]
      exact noMatch_of_adjacent front rest c d hc hd
  · intro pub
    rfl

/-- C1 at concrete names: one of each rejected shape, too short and too long names,
and the accepted `my-project_1`. -/
theorem validateProjectReq_eq_specValidateName_witness :
    validateProjectReq ⟨"my-Project", 0⟩ = some errIllegalChars ∧
    validateProjectReq ⟨"-myproject", 0⟩ = some errIllegalChars ∧
    validateProjectReq ⟨"myproject.", 0⟩ = some errIllegalChars ∧
    validateProjectReq ⟨"my-_project", 0⟩ = some errIllegalChars ∧
    validateProjectReq ⟨"a", 0⟩ = some errIllegalLength ∧
    validateProjectReq ⟨"a123456789b123456789c123456789d", 0⟩ = some errIllegalLength ∧
    validateProjectReq ⟨"my-project_1", 1⟩ = none ∧
    validateProjectReq ⟨"my-project_1", 1⟩ = specValidateName "my-project_1" :=
  ⟨validateProjectReq_eq_specValidateName.2.2.1 ⟨"my-Project", 0⟩ (by decide) (by decide)
      (Or.inl ⟨'P', by decide, by decide⟩),
    validateProjectReq_eq_specValidateName.2.2.1 ⟨"-myproject", 0⟩ (by decide) (by decide)
      (Or.inr (Or.inl ⟨'-', _, rfl, by decide⟩)),
    validateProjectReq_eq_specValidateName.2.2.1 ⟨"myproject.", 0⟩ (by decide) (by decide)
      (Or.inr (Or.inr (Or.inl ⟨['m', 'y', 'p', 'r', 'o', 'j', 'e', 'c', 't'], '.', rfl,
        by decide⟩))),
    validateProjectReq_eq_specValidateName.2.2.1 ⟨"my-_project", 0⟩ (by decide) (by decide)
      (Or.inr (Or.inr (Or.inr ⟨['m', 'y'], '-', '_', ['p', 'r', 'o', 'j', 'e', 'c', 't'], rfl,
        by decide, by decide⟩))),
    validateProjectReq_eq_specValidateName.2.1 ⟨"a", 0⟩ (Or.inl (by decide)),
    validateProjectReq_eq_specValidateName.2.1 ⟨"a123456789b123456789c123456789d", 0⟩
      (Or.inr (by decide)),
    validateProjectReq_eq_specValidateName.2.2.2 1,
    validateProjectReq_eq_specValidateName.1 ⟨"my-project_1", 1⟩⟩



/-! ## The handler monad: evaluation -/

@[simp] theorem H.pure_run {α : Type} (a : α) (s : St) : (pure a : H α) s = .ret a s := rfl

@[simp] theorem H.bind_run {α β : Type} (m : H α) (f : α → H β) (s : St) :
    (m >>= f) s = match m s with
      | .ret a s1 => f a s1
      | .aborted s1 => .aborted s1 := rfl

@[simp] theorem H.ite_run {α : Type} (c : Prop) [Decidable c] (x y : H α) (s : St) :
    (if c then x else y) s = if c then x s else y s := by
  split <;> rfl

/-! ## Create -/

/-- C2 at `my-project`: the store reports the uniqueness violation for a valid name
with a dash, and `Post` answers 500 `Failed to add project`; for `my_project` it
answers 409. -/
theorem Post_duplicate_dash_is_internal :
    validateProjectReq envCreateDuplicateDash.body = none ∧
    (envCreateDuplicateDash.AddProject
        { OwnerID := 7, Name := "my-project", CreationTime := 0, Public := 0 }).2
      = some "Duplicate entry 'my-project' for key 'name'" ∧
    dupProjectPattern.search "Duplicate entry 'my-project' for key 'name'".data = false ∧
    (ProjectAPI.Post envCreateDuplicateDash {}).state.resp
      = some (.error 500 "Failed to add project") ∧
    (ProjectAPI.Post envCreateDuplicateWord {}).state.resp = some (.error 409 "") := by
  refine ⟨by decide, rfl, by decide, by decide, by decide⟩

/-- C9 at a failing existence check and at a failing system-admin lookup: `Post`
logs the failure and goes on, inserts the project and answers 201. -/
theorem Post_store_failure_is_not_internal :
    (ProjectAPI.Post envCreateExistsFails {}).state.resp = some (.redirect 201 "12") ∧
    (ProjectAPI.Post envCreateExistsFails {}).state.calls.any Call.isInsert = true ∧
    (ProjectAPI.Post envCreateAdminLookupFails {}).state.resp = some (.redirect 201 "12") ∧
    (ProjectAPI.Post envCreateAdminLookupFails {}).state.calls.any Call.isInsert = true := by
  refine ⟨by decide, by decide, by decide, by decide⟩

/-- C10 at failing audit tasks: the task of `Post` aborts with status 500 when its
user lookup fails and when its access-log append fails; the task of `Delete`
aborts when its user lookup fails and only logs when its append fails. -/
theorem audit_task_aborts :
    (ProjectAPI.Post envCreateAuditUserFails {}).state.taskResp
      = some (.abort 500 "Internal Server Error") ∧
    (ProjectAPI.Post envCreateAuditLogFails {}).state.taskResp
      = some (.abort 500 "Internal Server Error") ∧
    (ProjectAPI.Post envCreateAuditOk {}).state.taskResp = none ∧
    (serve envDeleteAuditUserFails ProjectAPI.Delete).state.taskResp
      = some (.abort 500 "Internal Server Error") ∧
    (serve envDeleteAuditLogFails ProjectAPI.Delete).state.taskResp = none ∧
    (serve envDeleteAuditLogFails ProjectAPI.Delete).state.taskCalls
      = [.GetUser { UserID := 7 },
         .AddAccessLog { Username := "", ProjectID := 5, RepoName := "library/", RepoTag := "N/A",
                         Operation := "delete", OpTime := 0 },
         .Errorf "failed to add access log: %v"] := by
  refine ⟨by decide, by decide, by decide, by decide, by decide, by decide⟩

/-- C6 at a project whose visibility flag is 2: `Get` returns the record to a caller
without identity and never calls `ValidateUser`, while `Head` asks the same caller
to authenticate for the same project. -/
theorem Get_flag_two_is_served_unauthenticated :
    (serve envGetFlagTwo ProjectAPI.Get).state.resp
      = some (.project { sampleProject with Public := 2 }) ∧
    (serve envGetFlagTwo ProjectAPI.Get).state.calls = [.GetProjectByID 5, .GetProjectByID 5] ∧
    (ProjectAPI.Head envGetFlagTwo {}).state.resp = some (.abort 401 "") ∧
    (ProjectAPI.Head envGetFlagTwo {}).state.calls = [.GetProjectByName "library", .ValidateUser] := by
  refine ⟨by decide, by decide, by decide, by decide⟩


set_option maxHeartbeats 1000000 in
/-- C3: for every authenticated caller and every value of the policy that only
system admins may create projects, read without error, `Post` answers Forbidden
(status 403) exactly when the policy is on and the caller is no system admin, by
the value `dao.IsAdminRole` returns for the caller; and when it answers Forbidden
the response is the error `Only system admin can create project`, and it has made
no call to the validation of the name, to the existence check or to the insert,
and has started no audit task. -/
theorem Post_forbidden_iff (env : Env) (uid : Int) (onlyAdmin : Bool)
    (hu : env.ValidateUser = .ok uid)
    (hp : env.OnlyAdminCreateProject = (onlyAdmin, none)) :
    (statusOf (ProjectAPI.Post env {}).state.resp = 403
      ↔ (onlyAdmin = true ∧ (env.IsAdminRole uid).1 = false)) ∧
    (statusOf (ProjectAPI.Post env {}).state.resp = 403 →
      (ProjectAPI.Post env {}).state.resp
          = some (.error 403 "Only system admin can create project") ∧
        (ProjectAPI.Post env {}).state.started = false ∧
        ∀ c ∈ (ProjectAPI.Post env {}).state.calls,
          c.isValidation = false ∧ c.isExistenceCheck = false ∧ c.isInsert = false) := by
  rcases hA : env.IsAdminRole uid with ⟨b, e⟩
  have tail : ∀ s0 : St, s0.resp = none →
      statusOf ((do
        let req ← DecodeJSONReq env
        let pub := req.Public
        let err ← ask (.validateProjectReq req) (validateProjectReq req)
        match err with
        | some e =>
          Errorf "Invalid project request, error: %v"
          RenderError 400 ("invalid request: " ++ e)
        | none =>
          let projectName := req.ProjectName
          let r ← ask (.ProjectExists projectName) (env.ProjectExists projectName)
          let exist := r.1
          if r.2.isSome then
            Errorf "Error happened checking project existence in db, error: %v, project name: %s"
          if exist then
            RenderError 409 ""
          else
            let project : Project :=
              { OwnerID := uid, Name := projectName, CreationTime := env.now, Public := pub }
            let r ← ask (.AddProject project) (env.AddProject project)
            let projectID := r.1
            match r.2 with
            | some e =>
              Errorf "Failed to add project, error: %v"
              let dup := dupProjectPattern.search e.data
              if dup then
                RenderError 409 ""
              else
                RenderError 500 "Failed to add project"
            | none =>
              go (PostAudit env projectID project)
              Redirect 201 (toString projectID) : H Unit) s0).state.resp ≠ 403 := by
    intro s0 h0
    rcases hE : env.ProjectExists env.body.ProjectName with ⟨ex, ee⟩
    rcases hAdd : env.AddProject
      { OwnerID := uid, Name := env.body.ProjectName, CreationTime := env.now,
        Public := env.body.Public } with ⟨pid, ae⟩
    cases hv : validateProjectReq env.body
    · cases ex <;> cases ee <;> cases ae <;>
        simp [DecodeJSONReq, ask, call, Errorf, RenderError, Redirect, go,
          Res.state, statusOf, hE, hv, hAdd, h0]
      all_goals (split_ifs <;> simp [RenderError, statusOf])
    · simp [DecodeJSONReq, ask, call, Errorf, RenderError, Res.state, statusOf, hv]
  cases onlyAdmin <;> cases b <;> cases e
  case true.false.none =>
    simp [ProjectAPI.Post, ValidateUser, ask, call, setUserID, Errorf, RenderError,
      Res.state, statusOf, hu, hp, hA, Call.isValidation, Call.isExistenceCheck, Call.isInsert]
  case true.false.some =>
    simp [ProjectAPI.Post, ValidateUser, ask, call, setUserID, Errorf, RenderError,
      Res.state, statusOf, hu, hp, hA, Call.isValidation, Call.isExistenceCheck, Call.isInsert]
  all_goals
    have hne : statusOf (ProjectAPI.Post env {}).state.resp ≠ 403 := by
      simp only [ProjectAPI.Post, ValidateUser, ask, call, setUserID, Errorf, hu, hp, hA,
        H.bind_run, H.pure_run, H.ite_run, Option.isSome_none, Option.isSome_some,
        Bool.false_eq_true, if_false, if_true, Bool.not_true, Bool.not_false, Bool.and_false,
        Bool.and_true, Bool.false_and, Bool.true_and]
      exact tail _ rfl
    simp [hne]

/-- C3 at the example of the specification: `team-alpha` with `public = 0`, a
caller who is no system admin, the policy on. -/
theorem Post_forbidden_iff_witness :
    statusOf (ProjectAPI.Post envCreateForbidden {}).state.resp = 403 ∧
    (ProjectAPI.Post envCreateForbidden {}).state.resp
      = some (.error 403 "Only system admin can create project") :=
  ⟨(Post_forbidden_iff envCreateForbidden 7 true rfl rfl).1.mpr ⟨rfl, rfl⟩,
    ((Post_forbidden_iff envCreateForbidden 7 true rfl rfl).2
      ((Post_forbidden_iff envCreateForbidden 7 true rfl rfl).1.mpr ⟨rfl, rfl⟩)).1⟩

/-! ## Probe by name -/

/-- C8: for every non-empty name and a caller without identity, `Head` ends the
same way, with the same calls, whether the store finds no project of the name or
one whose visibility flag is not 1: with the abort of `ValidateUser`. The status
404 is answered only where `ValidateUser` returned a user id, and `Head` returns
without a call to `ValidateUser` only where the store found a project of the name
with visibility flag 1. -/
theorem Head_hides_private_names :
    (∀ (env1 env2 : Env) (body : String) (p : Project),
      len env1.paramProjectName ≠ 0 →
      env2.paramProjectName = env1.paramProjectName →
      env1.ValidateUser = .error body → env2.ValidateUser = .error body →
      env1.GetProjectByName env1.paramProjectName = (none, none) →
      env2.GetProjectByName env1.paramProjectName = (some p, none) →
      p.Public ≠ 1 →
      ProjectAPI.Head env1 {} = ProjectAPI.Head env2 {} ∧
        (ProjectAPI.Head env1 {}).state.resp = some (.abort 401 body) ∧
        (ProjectAPI.Head env1 {}).state.calls
          = [.GetProjectByName env1.paramProjectName, .ValidateUser]) ∧
    (∀ env : Env, statusOf (ProjectAPI.Head env {}).state.resp = 404 →
      ∃ uid, env.ValidateUser = .ok uid ∧ Call.ValidateUser ∈ (ProjectAPI.Head env {}).state.calls) ∧
    (∀ env : Env, (ProjectAPI.Head env {}).isAborted = false →
      Call.ValidateUser ∉ (ProjectAPI.Head env {}).state.calls →
      ∃ p, env.GetProjectByName env.paramProjectName = (some p, none) ∧ p.Public = 1) := by
  refine ⟨?_, ?_, ?_⟩
  · intro env1 env2 body p hn h2 hv1 hv2 hg1 hg2 hp
    simp [ProjectAPI.Head, ValidateUser, ask, call, Errorf, CustomAbort, Res.state,
      h2, hn, hv1, hv2, hg1, hg2, hp]
  · intro env
    by_cases hn : len env.paramProjectName = 0
    · simp [ProjectAPI.Head, CustomAbort, Res.state, statusOf, hn]
    · rcases hg : env.GetProjectByName env.paramProjectName with ⟨p, e⟩
      rcases hv : env.ValidateUser with body | uid
      · cases e <;> cases p <;>
          simp [ProjectAPI.Head, ValidateUser, ask, call, Errorf, CustomAbort, Res.state,
            statusOf, StatusText, hn, hg, hv]
        split_ifs <;> simp [CustomAbort, statusOf]
      · cases e <;> cases p <;>
          simp [ProjectAPI.Head, ValidateUser, ask, call, Errorf, CustomAbort, Res.state,
            statusOf, StatusText, hn, hg, hv]
        split_ifs <;> simp [statusOf]
  · intro env
    by_cases hn : len env.paramProjectName = 0
    · simp [ProjectAPI.Head, CustomAbort, Res.isAborted, hn]
    · rcases hg : env.GetProjectByName env.paramProjectName with ⟨p, e⟩
      rcases hv : env.ValidateUser with body | uid
      · cases e <;> cases p <;>
          simp [ProjectAPI.Head, ValidateUser, ask, call, Errorf, CustomAbort, Res.state,
            Res.isAborted, StatusText, hn, hg, hv]
        split_ifs <;> simp_all [CustomAbort, Res.isAborted]
      · cases e <;> cases p <;>
          simp [ProjectAPI.Head, ValidateUser, ask, call, Errorf, CustomAbort, Res.state,
            Res.isAborted, StatusText, hn, hg, hv]
        split_ifs <;> simp_all [Res.isAborted]

/-- C8 at the name `library`: absent, and present with visibility flag 0. -/
theorem Head_hides_private_names_witness :
    ProjectAPI.Head envHeadAbsent {} = ProjectAPI.Head envHeadPrivate {} ∧
    (ProjectAPI.Head envHeadAbsent {}).state.resp = some (.abort 401 "") :=
  ⟨(Head_hides_private_names.1 envHeadAbsent envHeadPrivate "" sampleProject
      (by decide) rfl rfl rfl rfl rfl (by decide)).1,
    (Head_hides_private_names.1 envHeadAbsent envHeadPrivate "" sampleProject
      (by decide) rfl rfl rfl rfl rfl (by decide)).2.1⟩



/-! ## Requests addressed by a path id -/

/-- A text `ParseInt` accepts is not empty. -/
theorem len_pos_of_ParseInt (s : String) (h : (ParseInt s).2 = none) : len s > 0 := by
  rcases s with ⟨data⟩
  cases data with
  | nil => simp [ParseInt] at h
  | cons c cs =>
    have hc := Char.utf8Size_pos c
    simp only [len, String.utf8ByteSize_mk, String.utf8Len_cons]
    omega

/-- `Prepare` on a path id that parses and addresses a project: it records the id
and the name of the project. -/
theorem Prepare_run (env : Env) (pid : Int) (proj : Project) (s : St)
    (hparse : ParseInt env.paramId = (pid, none))
    (hproj : env.GetProjectByID pid = (some proj, none)) :
    ProjectAPI.Prepare env s
      = .ret () { s with calls := s.calls ++ [.GetProjectByID pid],
                         projectID := pid, projectName := proj.Name } := by
  have hl : len env.paramId > 0 := len_pos_of_ParseInt _ (by rw [hparse])
  simp [ProjectAPI.Prepare, hl, hparse, hproj, setProjectID, setProjectName, getSt, ask, call]

/-- What `isProjectAdmin` returns and what it leaves behind: the value of
`canAdminister`, and calls to the role lookups and to the logger only. -/
theorem isProjectAdmin_run (env : Env) (uid pid : Int) (s : St) :
    isProjectAdmin env uid pid s
      = .ret (canAdminister env uid pid)
          { s with calls := s.calls ++ isProjectAdminCalls env uid pid } := by
  rcases hA : env.IsAdminRole uid with ⟨b, e⟩
  rcases hR : env.GetUserProjectRoles uid pid with ⟨l, e2⟩
  cases b <;> cases e <;> cases e2 <;>
    simp [isProjectAdminCalls, isProjectAdmin, canAdminister, ask, call, Errorf, hA, hR, Res.state]

theorem isProjectAdmin_calls (env : Env) (uid pid : Int) :
    (isProjectAdminCalls env uid pid).filter Call.isUpdate = [] := by
  rcases hA : env.IsAdminRole uid with ⟨b, e⟩
  rcases hR : env.GetUserProjectRoles uid pid with ⟨l, e2⟩
  cases b <;> cases e <;> cases e2 <;>
    simp [isProjectAdminCalls, isProjectAdmin, ask, call, Errorf, hA, hR, Res.state, Call.isUpdate]

/-! ## Toggle of the visibility -/

/-- C5 (amended): for every `ToggleProjectPublic` request whose path id parses,
served after `Prepare` found the project. A caller without identity is answered
by the abort of `ValidateUser` (status 401) and no update call is made. For an
authenticated caller: unless the caller is a system admin or holds the
`PROJECTADMIN` role on the path project (false when either role lookup fails) the
handler answers Forbidden and makes no update call; when permitted it makes
exactly one update call, for the path id, the id that was authorized, with the
flag of the request. -/
theorem Toggle_requires_admin (env : Env) (pid : Int) (proj : Project)
    (hparse : ParseInt env.paramId = (pid, none))
    (hproj : env.GetProjectByID pid = (some proj, none)) :
    (∀ body, env.ValidateUser = .error body →
      (serve env ProjectAPI.ToggleProjectPublic).state.resp = some (.abort 401 body) ∧
      (serve env ProjectAPI.ToggleProjectPublic).state.calls.filter Call.isUpdate = []) ∧
    (∀ uid, env.ValidateUser = .ok uid → canAdminister env uid pid = false →
      (serve env ProjectAPI.ToggleProjectPublic).state.resp = some (.error 403 "") ∧
      (serve env ProjectAPI.ToggleProjectPublic).state.calls.filter Call.isUpdate = []) ∧
    (∀ uid, env.ValidateUser = .ok uid → canAdminister env uid pid = true →
      (serve env ProjectAPI.ToggleProjectPublic).state.calls.filter Call.isUpdate
        = [.ToggleProjectPublicity pid env.body.Public]) ∧
    (∀ uid, canAdminister env uid pid = true ↔
      (env.IsAdminRole uid = (true, none) ∨
        (env.IsAdminRole uid = (false, none) ∧ (env.GetUserProjectRoles uid pid).2 = none ∧
          ∃ role ∈ (env.GetUserProjectRoles uid pid).1, role.RoleID = env.PROJECTADMIN))) := by
  refine ⟨?_, ?_, ?_, ?_⟩
  · intro body hv
    simp [serve, Prepare_run env pid proj _ hparse hproj, ProjectAPI.ToggleProjectPublic,
      ValidateUser, call, CustomAbort, Res.state, hv, Call.isUpdate]
  · intro uid hv hadm
    simp [serve, Prepare_run env pid proj _ hparse hproj, ProjectAPI.ToggleProjectPublic,
      ValidateUser, DecodeJSONReq, call, setUserID, Warningf, RenderError, Res.state, hv, hparse,
      isProjectAdmin_run, hadm, Call.isUpdate, isProjectAdmin_calls]
  · intro uid hv hadm
    cases ht : env.ToggleProjectPublicity pid env.body.Public <;>
      simp [serve, Prepare_run env pid proj _ hparse hproj, ProjectAPI.ToggleProjectPublic,
        ValidateUser, DecodeJSONReq, call, ask, getSt, setUserID, Errorf, RenderError, Res.state,
        hv, hparse, isProjectAdmin_run, hadm, Call.isUpdate, isProjectAdmin_calls, ht]
  · intro uid
    rcases hA : env.IsAdminRole uid with ⟨b, e⟩
    rcases hR : env.GetUserProjectRoles uid pid with ⟨l, e2⟩
    cases b <;> cases e <;> cases e2 <;> simp [canAdminister, hA, hR]

/-- C5 at project `5`: a member without the role is answered Forbidden, a holder
of the role gets the one update of project `5` to flag `1`. -/
theorem Toggle_requires_admin_witness :
    (serve envToggleMember ProjectAPI.ToggleProjectPublic).state.resp = some (.error 403 "") ∧
    (serve envToggleAdmin ProjectAPI.ToggleProjectPublic).state.calls.filter Call.isUpdate
      = [.ToggleProjectPublicity 5 1] :=
  ⟨((Toggle_requires_admin envToggleMember 5 sampleProject (by decide) rfl).2.1 7 rfl
      (by decide)).1,
    (Toggle_requires_admin envToggleAdmin 5 sampleProject (by decide) rfl).2.2.1 7 rfl
      (by decide)⟩

/-- C5 as stated, at a caller without identity: not a system admin, no role, and
the answer is the abort of `ValidateUser` with status 401, not Forbidden. -/
theorem Toggle_anonymous_is_not_forbidden :
    (ParseInt envToggleAnonymous.paramId).2 = none ∧
    (serve envToggleAnonymous ProjectAPI.ToggleProjectPublic).state.resp
      = some (.abort 401 "") ∧
    statusOf (serve envToggleAnonymous ProjectAPI.ToggleProjectPublic).state.resp ≠ 403 := by
  refine ⟨by decide, by decide, by decide⟩



/-! ## Delete -/

set_option maxHeartbeats 1000000 in
/-- C4 (amended): for every `Delete` request of a caller with the project-admin
permission on a project with a non-zero id. If the lookup of the repositories
succeeds and finds at least one, `Delete` answers PreconditionFailed (412) with the
message naming repositories; if it succeeds and finds none, and the lookup of the
policies succeeds and finds at least one, `Delete` answers 412 with the message
naming policies; if the lookup of the repositories fails, or it finds none and the
lookup of the policies fails, `Delete` answers 500. In each of these cases
`DeleteProject` is not called. `DeleteProject` is called only when both lookups
succeeded and found nothing, and then once, for the path id. -/
theorem Delete_precondition (env : Env) (pid uid : Int) (proj : Project)
    (hparse : ParseInt env.paramId = (pid, none))
    (hproj : env.GetProjectByID pid = (some proj, none))
    (hne : pid ≠ 0)
    (hu : env.ValidateUser = .ok uid)
    (hadm : env.hasProjectAdminRole uid pid = true) :
    (∀ repos, env.getReposByProject proj.Name = (repos, none) → repos ≠ [] →
      (serve env ProjectAPI.Delete).state.resp
          = some (.abort 412 "project contains repositores, can not be deleted") ∧
        (serve env ProjectAPI.Delete).state.calls.filter Call.isDelete = []) ∧
    (∀ pols, env.getReposByProject proj.Name = ([], none) →
      env.GetRepPolicyByProject pid = (pols, none) → pols ≠ [] →
      (serve env ProjectAPI.Delete).state.resp
          = some (.abort 412 "project contains policies, can not be deleted") ∧
        (serve env ProjectAPI.Delete).state.calls.filter Call.isDelete = []) ∧
    ((env.getReposByProject proj.Name).2 ≠ none →
      (serve env ProjectAPI.Delete).state.resp = some (.abort 500 "") ∧
        (serve env ProjectAPI.Delete).state.calls.filter Call.isDelete = []) ∧
    (env.getReposByProject proj.Name = ([], none) →
      (env.GetRepPolicyByProject pid).2 ≠ none →
      (serve env ProjectAPI.Delete).state.resp = some (.abort 500 "") ∧
        (serve env ProjectAPI.Delete).state.calls.filter Call.isDelete = []) ∧
    ((serve env ProjectAPI.Delete).state.calls.filter Call.isDelete ≠ [] →
      env.getReposByProject proj.Name = ([], none) ∧
        env.GetRepPolicyByProject pid = ([], none) ∧
        (serve env ProjectAPI.Delete).state.calls.filter Call.isDelete
          = [.DeleteProject pid]) := by
  generalize hs : (serve env ProjectAPI.Delete).state = st
  rcases hR : env.getReposByProject proj.Name with ⟨repos, re⟩
  rcases hP : env.GetRepPolicyByProject pid with ⟨pols, pe⟩
  rcases hD : env.DeleteProject pid with _ | de
  all_goals
    cases re <;> cases pe <;> cases repos <;> cases pols <;>
      simp [serve, Prepare_run env pid proj _ hparse hproj, ProjectAPI.Delete,
        projectContainsRepo, projectContainsPolicy, ValidateUser, call, ask, getSt, go,
        Errorf, CustomAbort, Res.state, hu, hadm, hne, hR, hP, hD] at hs <;>
      subst hs <;>
      simp [Call.isDelete]

/-- C4 (amended) at project `5` with one repository: 412, and no delete. -/
theorem Delete_precondition_witness :
    (serve envDeleteWithRepo ProjectAPI.Delete).state.resp
      = some (.abort 412 "project contains repositores, can not be deleted") ∧
    (serve envDeleteWithRepo ProjectAPI.Delete).state.calls.filter Call.isDelete = [] :=
  (Delete_precondition envDeleteWithRepo 5 7 sampleProject (by decide) rfl (by decide) rfl
    rfl).1 ["library/app"] rfl (by decide)

/-- C4 as stated, at project `5` with one policy where the lookup of the
repositories fails: the caller has the project-admin permission, the id is not
zero, the project has a policy, and the answer is 500, not PreconditionFailed. -/
theorem Delete_repo_lookup_failure_is_internal :
    envDeleteRepoLookupFails.hasProjectAdminRole 7 5 = true ∧
    envDeleteRepoLookupFails.GetRepPolicyByProject 5 = ([3], none) ∧
    (serve envDeleteRepoLookupFails ProjectAPI.Delete).state.resp = some (.abort 500 "") ∧
    statusOf (serve envDeleteRepoLookupFails ProjectAPI.Delete).state.resp ≠ 412 := by
  refine ⟨rfl, rfl, by decide, by decide⟩



/-! ## List -/

/-- One turn of the loop of `List`, when it returns: it added calls to the role
lookup and to the repository lookup only, left the response alone, and kept the
visibility flag of the project. -/
theorem listEntry_ret {env : Env} {pub : Int} {isAdmin : Bool} {project q : Project}
    {s s1 : St} (h : listEntry env pub isAdmin project s = .ret q s1) :
    (∃ extra : List Call, s1.calls = s.calls ++ extra ∧
        ∀ c ∈ extra, c.isProjectQuery = false ∧ c ≠ .ValidateUser) ∧
      s1.resp = s.resp ∧ q.Public = project.Public := by
  rcases hL : env.GetUserProjectRoles s.userID project.ProjectID with ⟨roles, le⟩
  by_cases hp : pub = 1
  · rcases hR : env.GetRepositoryByProjectName project.Name with ⟨repos, re⟩
    cases re <;>
      simp [listEntry, hp, ask, call, getSt, Errorf, CustomAbort, hR] at h
    obtain ⟨hq, hs⟩ := h
    subst hq; subst hs
    exact ⟨⟨_, rfl, by simp [Call.isProjectQuery]⟩, rfl, rfl⟩
  · cases le with
    | some e => simp [listEntry, hp, ask, call, getSt, Errorf, CustomAbort, hL] at h
    | none =>
      cases roles with
      | nil =>
        rcases hR : env.GetRepositoryByProjectName project.Name with ⟨repos, re⟩
        cases re <;>
          simp [listEntry, hp, ask, call, getSt, Errorf, CustomAbort, hL, hR] at h
        split_ifs at h <;> simp [hR] at h <;> obtain ⟨hq, hs⟩ := h <;> subst hq <;> subst hs <;>
          exact ⟨⟨_, rfl, by simp [Call.isProjectQuery]⟩, rfl, rfl⟩
      | cons role more =>
        rcases hR : env.GetRepositoryByProjectName project.Name with ⟨repos, re⟩
        cases re <;>
          simp [listEntry, hp, ask, call, getSt, Errorf, CustomAbort, hL, hR] at h
        split_ifs at h <;> simp [hR] at h <;> obtain ⟨hq, hs⟩ := h <;> subst hq <;> subst hs <;>
          exact ⟨⟨_, rfl, by simp [Call.isProjectQuery]⟩, rfl, rfl⟩

/-- One turn of the loop of `List`, when it aborts: it added calls to the role
lookup, to the repository lookup and to the logger only, and the response is the
abort with status 500. -/
theorem listEntry_aborted {env : Env} {pub : Int} {isAdmin : Bool} {project : Project}
    {s s1 : St} (h : listEntry env pub isAdmin project s = .aborted s1) :
    (∃ extra : List Call, s1.calls = s.calls ++ extra ∧
        ∀ c ∈ extra, c.isProjectQuery = false ∧ c ≠ .ValidateUser) ∧
      s1.resp = some (.abort 500 "") := by
  rcases hL : env.GetUserProjectRoles s.userID project.ProjectID with ⟨roles, le⟩
  by_cases hp : pub = 1
  · rcases hR : env.GetRepositoryByProjectName project.Name with ⟨repos, re⟩
    cases re <;>
      simp [listEntry, hp, ask, call, getSt, Errorf, CustomAbort, hR] at h
    subst h
    exact ⟨⟨_, rfl, by simp [Call.isProjectQuery]⟩, rfl⟩
  · cases le with
    | some e =>
      simp [listEntry, hp, ask, call, getSt, Errorf, CustomAbort, hL] at h
      subst h
      exact ⟨⟨_, rfl, by simp [Call.isProjectQuery]⟩, rfl⟩
    | none =>
      cases roles with
      | nil =>
        rcases hR : env.GetRepositoryByProjectName project.Name with ⟨repos, re⟩
        cases re <;>
          simp [listEntry, hp, ask, call, getSt, Errorf, CustomAbort, hL, hR] at h
        all_goals first
          | (subst h; exact ⟨⟨_, rfl, by simp [Call.isProjectQuery]⟩, rfl⟩)
          | (split_ifs at h)
      | cons role more =>
        rcases hR : env.GetRepositoryByProjectName project.Name with ⟨repos, re⟩
        cases re <;>
          simp [listEntry, hp, ask, call, getSt, Errorf, CustomAbort, hL, hR] at h
        all_goals first
          | (subst h; exact ⟨⟨_, rfl, by simp [Call.isProjectQuery]⟩, rfl⟩)
          | (split_ifs at h)


/-- The loop of `List`, when it returns: it added calls to the role lookup and to
the repository lookup only, left the response alone, and the projects it returns
carry the visibility flags of the projects of the page, in order. -/
theorem listLoop_ret {env : Env} {pub : Int} {isAdmin : Bool} {l out : List Project}
    {s s1 : St} (h : listLoop env pub isAdmin l s = .ret out s1) :
    (∃ extra : List Call, s1.calls = s.calls ++ extra ∧
        ∀ c ∈ extra, c.isProjectQuery = false ∧ c ≠ .ValidateUser) ∧
      s1.resp = s.resp ∧ out.map Project.Public = l.map Project.Public := by
  induction l generalizing s s1 out with
  | nil =>
    simp [listLoop] at h
    obtain ⟨ho, hs⟩ := h
    subst ho; subst hs
    exact ⟨⟨[], by simp, by simp⟩, rfl, rfl⟩
  | cons project rest ih =>
    simp only [listLoop, H.bind_run, H.pure_run] at h
    split at h
    · rename_i q s2 hq
      split at h
      · rename_i others s3 ho
        simp only [Res.ret.injEq] at h
        obtain ⟨hout, hs⟩ := h
        subst hout; subst hs
        obtain ⟨⟨e1, hc1, hn1⟩, hr1, hp1⟩ := listEntry_ret hq
        obtain ⟨⟨e2, hc2, hn2⟩, hr2, hp2⟩ := ih ho
        refine ⟨⟨e1 ++ e2, by rw [hc2, hc1, List.append_assoc], ?_⟩, by rw [hr2, hr1],
          by simp [hp1, hp2]⟩
        intro c hc
        rcases List.mem_append.mp hc with hm | hm
        · exact hn1 c hm
        · exact hn2 c hm
      · simp at h
    · simp at h

/-- The loop of `List`, when it aborts: it added calls to the role lookup, to the
repository lookup and to the logger only, and the response is the abort with
status 500. -/
theorem listLoop_aborted {env : Env} {pub : Int} {isAdmin : Bool} {l : List Project}
    {s s1 : St} (h : listLoop env pub isAdmin l s = .aborted s1) :
    (∃ extra : List Call, s1.calls = s.calls ++ extra ∧
        ∀ c ∈ extra, c.isProjectQuery = false ∧ c ≠ .ValidateUser) ∧
      s1.resp = some (.abort 500 "") := by
  induction l generalizing s s1 with
  | nil => simp [listLoop] at h
  | cons project rest ih =>
    simp only [listLoop, H.bind_run, H.pure_run] at h
    split at h
    · rename_i q s2 hq
      split at h
      · simp at h
      · rename_i s3 ho
        simp only [Res.aborted.injEq] at h
        subst h
        obtain ⟨⟨e1, hc1, hn1⟩, _, _⟩ := listEntry_ret hq
        obtain ⟨⟨e2, hc2, hn2⟩, hr2⟩ := ih ho
        refine ⟨⟨e1 ++ e2, by rw [hc2, hc1, List.append_assoc], ?_⟩, hr2⟩
        intro c hc
        rcases List.mem_append.mp hc with hm | hm
        · exact hn1 c hm
        · exact hn2 c hm
    · rename_i s2 hq
      simp only [Res.aborted.injEq] at h
      subst h
      exact listEntry_aborted hq


/-- The end of `List`, the loop and the writing of the page: no project query and no
call to `ValidateUser` is added, and a page that is written carries the visibility
flags of the projects the page query returned. -/
theorem loop_serve (env : Env) (pub : Int) (isAdmin : Bool) (l : List Project)
    (total page pageSize : Int) (s : St) (r : Res Unit)
    (hr : (listLoop env pub isAdmin l >>= fun out =>
      Serve (.projects total page pageSize out)) s = r) :
    r.state.calls.filter Call.isProjectQuery = s.calls.filter Call.isProjectQuery ∧
    (Call.ValidateUser ∈ r.state.calls → Call.ValidateUser ∈ s.calls) ∧
    r.state.calls.head? = (s.calls ++ (r.state.calls.drop s.calls.length)).head? ∧
    (∃ extra, r.state.calls = s.calls ++ extra) ∧
    (∀ t p q out, r.state.resp = some (.projects t p q out) →
      out.map Project.Public = l.map Project.Public) := by
  have hfilter : ∀ extra : List Call,
      (∀ c ∈ extra, c.isProjectQuery = false ∧ c ≠ .ValidateUser) →
      (s.calls ++ extra).filter Call.isProjectQuery = s.calls.filter Call.isProjectQuery ∧
      (Call.ValidateUser ∈ s.calls ++ extra → Call.ValidateUser ∈ s.calls) := by
    intro extra hx
    constructor
    · rw [List.filter_append]
      have : extra.filter Call.isProjectQuery = [] := by
        rw [List.filter_eq_nil_iff]
        intro c hc
        simp [(hx c hc).1]
      rw [this, List.append_nil]
    · intro hm
      rcases List.mem_append.mp hm with h | h
      · exact h
      · exact absurd rfl (hx _ h).2
  simp only [H.bind_run] at hr
  split at hr
  · rename_i out s1 heq
    obtain ⟨⟨extra, hc, hn⟩, hresp, hmap⟩ := listLoop_ret heq
    subst hr
    simp only [Serve, Res.state, hc]
    refine ⟨(hfilter extra hn).1, (hfilter extra hn).2, by simp, ⟨extra, rfl⟩, ?_⟩
    intro t p q out' ho
    simp only [Option.some.injEq, Response.projects.injEq] at ho
    rw [← ho.2.2.2]
    exact hmap
  · rename_i s1 heq
    obtain ⟨⟨extra, hc, hn⟩, hresp⟩ := listLoop_aborted heq
    subst hr
    simp only [Res.state, hc, hresp]
    refine ⟨(hfilter extra hn).1, (hfilter extra hn).2, by simp, ⟨extra, rfl⟩, ?_⟩
    intro t p q out' ho
    simp at ho

theorem List_public (env : Env) (pub : Int)
    (hpub : if len env.paramIsPublic > 0 then Atoi env.paramIsPublic = (pub, none) else pub = 0)
    (h1 : pub = 1) :
      Call.ValidateUser ∉ (ProjectAPI.List env {}).state.calls ∧
      (ProjectAPI.List env {}).state.calls.filter Call.isProjectQuery
        = (if (env.GetTotalOfProjects env.paramProjectName [1]).2.isSome
           then [.GetTotalOfProjects env.paramProjectName [1]]
           else [.GetTotalOfProjects env.paramProjectName [1],
                 .GetProjects env.paramProjectName
                    [1, env.pageSize, mulInt64 env.pageSize (subInt64 env.page 1)]]) ∧
      ((∀ p ∈ (env.GetProjects env.paramProjectName
            [1, env.pageSize, mulInt64 env.pageSize (subInt64 env.page 1)]).1, p.Public = 1) →
        ∀ total page pageSize list,
          (ProjectAPI.List env {}).state.resp = some (.projects total page pageSize list) →
          ∀ p ∈ list, p.Public = 1) := by
  subst h1
  have hl : len env.paramIsPublic > 0 := by
    by_contra hc
    simp [hc] at hpub
  simp only [hl, if_true] at hpub
  generalize hr : ProjectAPI.List env {} = r
  rcases hT : env.GetTotalOfProjects env.paramProjectName [1] with ⟨total, te⟩
  rcases hP : env.GetProjects env.paramProjectName
    [1, env.pageSize, mulInt64 env.pageSize (subInt64 env.page 1)] with ⟨l, pe⟩
  cases te with
  | some e =>
    simp [ProjectAPI.List, hl, hpub, hT, ask, call, Errorf, CustomAbort] at hr
    subst hr
    simp [Res.state, Call.isProjectQuery]
  | none =>
    cases pe with
    | some e =>
      simp [ProjectAPI.List, hl, hpub, hT, hP, ask, call, Errorf, CustomAbort] at hr
      subst hr
      simp [Res.state, Call.isProjectQuery]
    | none =>
      simp [ProjectAPI.List, hl, hpub, hT, hP, ask, call, Errorf, CustomAbort] at hr
      obtain ⟨hf, hv, _, _, hm⟩ := loop_serve env 1 false l total env.page env.pageSize
        { calls := [.GetTotalOfProjects env.paramProjectName [1],
            .GetProjects env.paramProjectName
              [1, env.pageSize, mulInt64 env.pageSize (subInt64 env.page 1)]] } r hr
      refine ⟨fun hmem => by simpa using hv hmem, by simpa [Call.isProjectQuery] using hf, ?_⟩
      intro hall t p q out ho x hx
      have := hm t p q out ho
      have hx1 : x.Public ∈ out.map Project.Public := List.mem_map_of_mem _ hx
      rw [this] at hx1
      obtain ⟨y, hy, hyx⟩ := List.mem_map.mp hx1
      rw [← hyx]
      exact hall y hy

set_option maxHeartbeats 4000000 in
theorem List_authenticated (env : Env) (pub : Int)
    (hpub : if len env.paramIsPublic > 0 then Atoi env.paramIsPublic = (pub, none) else pub = 0)
    (h1 : pub ≠ 1) :
      (ProjectAPI.List env {}).state.calls.head? = some .ValidateUser ∧
      (∀ body, env.ValidateUser = .error body →
        (ProjectAPI.List env {}).state.resp = some (.abort 401 body) ∧
        (ProjectAPI.List env {}).state.calls.filter Call.isProjectQuery = []) ∧
      (∀ uid, env.ValidateUser = .ok uid → (env.IsAdminRole uid).2 ≠ none →
        (ProjectAPI.List env {}).state.resp = some (.abort 500 "Internal error.") ∧
        (ProjectAPI.List env {}).state.calls.filter Call.isProjectQuery = []) ∧
      (∀ uid, env.ValidateUser = .ok uid → env.IsAdminRole uid = (true, none) →
        (ProjectAPI.List env {}).state.calls.filter Call.isProjectQuery
          = (if (env.GetTotalOfProjects env.paramProjectName []).2.isSome
             then [.GetTotalOfProjects env.paramProjectName []]
             else [.GetTotalOfProjects env.paramProjectName [],
                   .GetProjects env.paramProjectName
                      [env.pageSize, mulInt64 env.pageSize (subInt64 env.page 1)]])) ∧
      (∀ uid, env.ValidateUser = .ok uid → env.IsAdminRole uid = (false, none) →
        (ProjectAPI.List env {}).state.calls.filter Call.isProjectQuery
          = (if (env.GetTotalOfUserRelevantProjects uid env.paramProjectName).2.isSome
             then [.GetTotalOfUserRelevantProjects uid env.paramProjectName]
             else [.GetTotalOfUserRelevantProjects uid env.paramProjectName,
                   .GetUserRelevantProjects uid env.paramProjectName
                      [env.pageSize, mulInt64 env.pageSize (subInt64 env.page 1)]])) := by
  have hpre : (len env.paramIsPublic > 0 ∧ Atoi env.paramIsPublic = (pub, none)) ∨
      (¬ len env.paramIsPublic > 0 ∧ pub = 0) := by
    split at hpub
    · left; exact ⟨by assumption, hpub⟩
    · right; exact ⟨by assumption, hpub⟩
  generalize hr : ProjectAPI.List env {} = r
  rcases hV : env.ValidateUser with body | uid
  · -- no identity
    have hrun : r = .aborted { calls := [.ValidateUser], resp := some (.abort 401 body) } := by
      rcases hpre with ⟨hl, hA⟩ | ⟨hl, hA⟩ <;>
        simp [ProjectAPI.List, hl, hA, h1, hV, ValidateUser, call, CustomAbort] at hr <;>
        exact hr.symm
    subst hrun
    simp [Res.state, Call.isProjectQuery]
  · rcases hA : env.IsAdminRole uid with ⟨adm, ae⟩
    cases ae with
    | some e =>
      have hrun : r = .aborted
          { calls := [.ValidateUser, .IsAdminRole uid,
              .Errorf "Error occured in check admin, error: %v"],
            resp := some (.abort 500 "Internal error."), userID := uid } := by
        rcases hpre with ⟨hl, hP⟩ | ⟨hl, hP⟩ <;>
          simp [ProjectAPI.List, hl, hP, h1, hV, hA, ValidateUser, call, ask, setUserID, Errorf,
            CustomAbort] at hr <;>
          exact hr.symm
      subst hrun
      simp [Res.state, Call.isProjectQuery, hA]
    | none =>
      cases adm with
      | true =>
        rcases hT : env.GetTotalOfProjects env.paramProjectName [] with ⟨total, te⟩
        rcases hP : env.GetProjects env.paramProjectName
          [env.pageSize, mulInt64 env.pageSize (subInt64 env.page 1)] with ⟨l, pe⟩
        cases te with
        | some e =>
          have hrun : r = .aborted
              { calls := [.ValidateUser, .IsAdminRole uid,
                  .GetTotalOfProjects env.paramProjectName [],
                  .Errorf "failed to get total of projects: %v"],
                resp := some (.abort 500 ""), userID := uid } := by
            rcases hpre with ⟨hl, hQ⟩ | ⟨hl, hQ⟩ <;>
              simp [ProjectAPI.List, hl, hQ, h1, hV, hA, hT, ValidateUser, call, ask, setUserID,
                Errorf, CustomAbort] at hr <;>
              exact hr.symm
          subst hrun
          simp [Res.state, Call.isProjectQuery, hA, hT]
        | none =>
          cases pe with
          | some e =>
            have hrun : r = .aborted
                { calls := [.ValidateUser, .IsAdminRole uid,
                    .GetTotalOfProjects env.paramProjectName [],
                    .GetProjects env.paramProjectName
                      [env.pageSize, mulInt64 env.pageSize (subInt64 env.page 1)],
                    .Errorf "failed to get projects: %v"],
                  resp := some (.abort 500 ""), userID := uid } := by
              rcases hpre with ⟨hl, hQ⟩ | ⟨hl, hQ⟩ <;>
                simp [ProjectAPI.List, hl, hQ, h1, hV, hA, hT, hP, ValidateUser, call, ask,
                  setUserID, Errorf, CustomAbort] at hr <;>
                exact hr.symm
            subst hrun
            simp [Res.state, Call.isProjectQuery, hA, hT]
          | none =>
            have hrun : (listLoop env pub true l >>= fun out =>
                Serve (.projects total env.page env.pageSize out))
                { calls := [.ValidateUser, .IsAdminRole uid,
                    .GetTotalOfProjects env.paramProjectName [],
                    .GetProjects env.paramProjectName
                      [env.pageSize, mulInt64 env.pageSize (subInt64 env.page 1)]],
                  userID := uid } = r := by
              rcases hpre with ⟨hl, hQ⟩ | ⟨hl, hQ⟩ <;>
                simp [ProjectAPI.List, hl, hQ, h1, hV, hA, hT, hP, ValidateUser, call, ask,
                  setUserID, Errorf, CustomAbort] at hr <;>
                simp [hQ] <;>
                exact hr
            obtain ⟨hf, _, _, ⟨extra, hx⟩, _⟩ := loop_serve _ _ _ _ _ _ _ _ _ hrun
            have hh : r.state.calls.head? = some .ValidateUser := by rw [hx]; rfl
            simp [hh, hf, Call.isProjectQuery, hA, hT]
      | false =>
        rcases hT : env.GetTotalOfUserRelevantProjects uid env.paramProjectName with ⟨total, te⟩
        rcases hP : env.GetUserRelevantProjects uid env.paramProjectName
          [env.pageSize, mulInt64 env.pageSize (subInt64 env.page 1)] with ⟨l, pe⟩
        cases te with
        | some e =>
          have hrun : r = .aborted
              { calls := [.ValidateUser, .IsAdminRole uid,
                  .GetTotalOfUserRelevantProjects uid env.paramProjectName,
                  .Errorf "failed to get total of projects: %v"],
                resp := some (.abort 500 ""), userID := uid } := by
            rcases hpre with ⟨hl, hQ⟩ | ⟨hl, hQ⟩ <;>
              simp [ProjectAPI.List, hl, hQ, h1, hV, hA, hT, ValidateUser, call, ask, setUserID,
                Errorf, CustomAbort] at hr <;>
              exact hr.symm
          subst hrun
          simp [Res.state, Call.isProjectQuery, hA, hT]
        | none =>
          cases pe with
          | some e =>
            have hrun : r = .aborted
                { calls := [.ValidateUser, .IsAdminRole uid,
                    .GetTotalOfUserRelevantProjects uid env.paramProjectName,
                    .GetUserRelevantProjects uid env.paramProjectName
                      [env.pageSize, mulInt64 env.pageSize (subInt64 env.page 1)],
                    .Errorf "failed to get projects: %v"],
                  resp := some (.abort 500 ""), userID := uid } := by
              rcases hpre with ⟨hl, hQ⟩ | ⟨hl, hQ⟩ <;>
                simp [ProjectAPI.List, hl, hQ, h1, hV, hA, hT, hP, ValidateUser, call, ask,
                  setUserID, Errorf, CustomAbort] at hr <;>
                exact hr.symm
            subst hrun
            simp [Res.state, Call.isProjectQuery, hA, hT]
          | none =>
            have hrun : (listLoop env pub false l >>= fun out =>
                Serve (.projects total env.page env.pageSize out))
                { calls := [.ValidateUser, .IsAdminRole uid,
                    .GetTotalOfUserRelevantProjects uid env.paramProjectName,
                    .GetUserRelevantProjects uid env.paramProjectName
                      [env.pageSize, mulInt64 env.pageSize (subInt64 env.page 1)]],
                  userID := uid } = r := by
              rcases hpre with ⟨hl, hQ⟩ | ⟨hl, hQ⟩ <;>
                simp [ProjectAPI.List, hl, hQ, h1, hV, hA, hT, hP, ValidateUser, call, ask,
                  setUserID, Errorf, CustomAbort] at hr <;>
                simp [hQ] <;>
                exact hr
            obtain ⟨hf, _, _, ⟨extra, hx⟩, _⟩ := loop_serve _ _ _ _ _ _ _ _ _ hrun
            have hh : r.state.calls.head? = some .ValidateUser := by rw [hx]; rfl
            simp [hh, hf, Call.isProjectQuery, hA, hT]

/-- The offset of the page query is the exact product where no `int64` overflows. -/
theorem offset_exact (page pageSize : Int) (h1 : 1 ≤ page) (h2 : page < 2 ^ 63)
    (h3 : 0 ≤ pageSize) (h4 : pageSize * (page - 1) < 2 ^ 63) :
    mulInt64 pageSize (subInt64 page 1) = pageSize * (page - 1) := by
  have e63 : (2 : Int) ^ 63 = 9223372036854775808 := by norm_num
  have e64 : (2 : Int) ^ 64 = 18446744073709551616 := by norm_num
  have hs : subInt64 page 1 = page - 1 := by
    simp only [subInt64, wrapInt64, e63, e64] at *
    omega
  have hx : 0 ≤ pageSize * (page - 1) := mul_nonneg h3 (by omega)
  rw [hs]
  show wrapInt64 (pageSize * (page - 1)) = pageSize * (page - 1)
  generalize pageSize * (page - 1) = x at *
  simp only [wrapInt64, e63, e64] at *
  omega

/-- An `is_public` that is given and does not parse: `List` answers 400 before any
query and before `ValidateUser`. -/
theorem List_unparseable (env : Env) (hl : len env.paramIsPublic > 0)
    (he : (Atoi env.paramIsPublic).2 ≠ none) :
    (ProjectAPI.List env {}).state.resp = some (.abort 400 "invalid project Id") ∧
      (ProjectAPI.List env {}).state.calls
        = [.Errorf "Error parsing public property: %v, error: %v"] := by
  rcases hA : Atoi env.paramIsPublic with ⟨v, e⟩
  cases e with
  | none => simp [hA] at he
  | some msg => simp [ProjectAPI.List, hl, hA, Errorf, call, CustomAbort, Res.state]

/-- C7: `List` chooses its store queries by a three-way branch on the parsed
`is_public` (`0` when the parameter is absent) and the caller, and the total count
and the page are asked in the same scope. With `is_public = 1` it never calls
`ValidateUser`, and the count and the page query both carry the public filter `1`;
where the store answers the page query with public projects only, a page that is
written holds public projects only. Otherwise its first call is `ValidateUser`:
without identity, and where the system-admin lookup fails, no project is queried;
for a system admin the count and the page range over all projects of the name; for
another caller over the user-relevant projects of the caller. In every branch the
page query is passed the limit `pageSize` and the offset `pageSize * (page - 1)`,
computed on `int64`, which is the exact product where nothing overflows; the page
query is made when the count query succeeded. An `is_public` that does not parse is
answered 400 with no query at all. -/
theorem List_scope (env : Env) :
    (∀ pub : Int,
      (if len env.paramIsPublic > 0 then Atoi env.paramIsPublic = (pub, none) else pub = 0) →
      pub = 1 →
      Call.ValidateUser ∉ (ProjectAPI.List env {}).state.calls ∧
      (ProjectAPI.List env {}).state.calls.filter Call.isProjectQuery
        = (if (env.GetTotalOfProjects env.paramProjectName [1]).2.isSome
           then [.GetTotalOfProjects env.paramProjectName [1]]
           else [.GetTotalOfProjects env.paramProjectName [1],
                 .GetProjects env.paramProjectName
                    [1, env.pageSize, mulInt64 env.pageSize (subInt64 env.page 1)]]) ∧
      ((∀ p ∈ (env.GetProjects env.paramProjectName
            [1, env.pageSize, mulInt64 env.pageSize (subInt64 env.page 1)]).1, p.Public = 1) →
        ∀ total page pageSize list,
          (ProjectAPI.List env {}).state.resp = some (.projects total page pageSize list) →
          ∀ p ∈ list, p.Public = 1)) ∧
    (∀ pub : Int,
      (if len env.paramIsPublic > 0 then Atoi env.paramIsPublic = (pub, none) else pub = 0) →
      pub ≠ 1 →
      (ProjectAPI.List env {}).state.calls.head? = some .ValidateUser ∧
      (∀ body, env.ValidateUser = .error body →
        (ProjectAPI.List env {}).state.resp = some (.abort 401 body) ∧
        (ProjectAPI.List env {}).state.calls.filter Call.isProjectQuery = []) ∧
      (∀ uid, env.ValidateUser = .ok uid → (env.IsAdminRole uid).2 ≠ none →
        (ProjectAPI.List env {}).state.resp = some (.abort 500 "Internal error.") ∧
        (ProjectAPI.List env {}).state.calls.filter Call.isProjectQuery = []) ∧
      (∀ uid, env.ValidateUser = .ok uid → env.IsAdminRole uid = (true, none) →
        (ProjectAPI.List env {}).state.calls.filter Call.isProjectQuery
          = (if (env.GetTotalOfProjects env.paramProjectName []).2.isSome
             then [.GetTotalOfProjects env.paramProjectName []]
             else [.GetTotalOfProjects env.paramProjectName [],
                   .GetProjects env.paramProjectName
                      [env.pageSize, mulInt64 env.pageSize (subInt64 env.page 1)]])) ∧
      (∀ uid, env.ValidateUser = .ok uid → env.IsAdminRole uid = (false, none) →
        (ProjectAPI.List env {}).state.calls.filter Call.isProjectQuery
          = (if (env.GetTotalOfUserRelevantProjects uid env.paramProjectName).2.isSome
             then [.GetTotalOfUserRelevantProjects uid env.paramProjectName]
             else [.GetTotalOfUserRelevantProjects uid env.paramProjectName,
                   .GetUserRelevantProjects uid env.paramProjectName
                      [env.pageSize, mulInt64 env.pageSize (subInt64 env.page 1)]]))) ∧
    (len env.paramIsPublic > 0 → (Atoi env.paramIsPublic).2 ≠ none →
      (ProjectAPI.List env {}).state.resp = some (.abort 400 "invalid project Id") ∧
      (ProjectAPI.List env {}).state.calls.filter Call.isProjectQuery = [] ∧
      Call.ValidateUser ∉ (ProjectAPI.List env {}).state.calls) ∧
    (1 ≤ env.page → env.page < 2 ^ 63 → 0 ≤ env.pageSize →
      env.pageSize * (env.page - 1) < 2 ^ 63 →
      mulInt64 env.pageSize (subInt64 env.page 1) = env.pageSize * (env.page - 1)) := by
  refine ⟨fun pub hpub => List_public env pub hpub,
    fun pub hpub => List_authenticated env pub hpub, ?_, offset_exact env.page env.pageSize⟩
  intro hl he
  obtain ⟨h1, h2⟩ := List_unparseable env hl he
  rw [h1, h2]
  simp [Call.isProjectQuery]

/-- C7 at the second page of ten of the public projects, asked without identity,
and at the first page of ten asked by a system admin. -/
theorem List_scope_witness :
    Call.ValidateUser ∉ (ProjectAPI.List envListPublic {}).state.calls ∧
    (ProjectAPI.List envListPublic {}).state.calls.filter Call.isProjectQuery
      = [.GetTotalOfProjects "" [1], .GetProjects "" [1, 10, 10]] ∧
    (ProjectAPI.List envListAdmin {}).state.calls.filter Call.isProjectQuery
      = [.GetTotalOfProjects "" [], .GetProjects "" [10, 0]] :=
  ⟨((List_scope envListPublic).1 1 (by decide) rfl).1,
    ((List_scope envListPublic).1 1 (by decide) rfl).2.1,
    ((List_scope envListAdmin).2.1 0 (by decide) (by decide)).2.2.2.1 7 rfl rfl⟩

end Harbor
